import Mathlib

/-!
Verification development for the Remote-Command-Execution repository
(src/server.py, src/client.py).

The server's per-connection loop (RemoteCommandServer.handle_client) is
embedded as a step function on one received message: it receives a chunk of
bytes, UTF-8 decodes it, JSON-parses it, extracts command/args/token,
authenticates, dispatches to one of twelve registered handlers, and either
replies on the open connection or closes it.  All operating-system facilities
the handlers touch (filesystem, psutil, subprocess) are passed in explicitly
as an environment of oracle functions, so handlers are pure functions of
their arguments and that environment, exactly mirroring the Python control
flow including which exceptions are raised where and which try/except blocks
catch them.

The wire codec (Python json.dumps / json.loads and bytes.decode) has no
source under src/; it is modelled from the spec's Wire Codec contract:
UTF-8 JSON, one object per message.  Numbers are modelled as arbitrary
precision integers; IEEE-754 float literals are outside the model.
-/

namespace RCE

/-- A JSON value as handled by the wire codec and the handlers.  Python dicts
are modelled as association lists in insertion order; a JSON number is
modelled as an arbitrary-precision integer (Python ints are unbounded;
float literals are outside the model). -/
inductive Value where
  | null : Value
  | bool (b : Bool) : Value
  | int (n : Int) : Value
  | str (s : String) : Value
  | arr (xs : List Value) : Value
  | obj (kvs : List (String × Value)) : Value

/-- A raised Python exception, carrying the text produced by str(e). -/
structure PyErr where
  msg : String

/-- The Python type name of a JSON value, as used in AttributeError texts. -/
def pyTypeName : Value → String
  | .null => "NoneType"
  | .bool _ => "bool"
  | .int _ => "int"
  | .str _ => "str"
  | .arr _ => "list"
  | .obj _ => "dict"

/-- The AttributeError raised by calling .get on a non-dict value. -/
def attrNoGet (v : Value) : PyErr :=
  ⟨"'" ++ pyTypeName v ++ "' object has no attribute 'get'"⟩

/-- The AttributeError raised by calling .lower on a non-str value. -/
def attrNoLower (v : Value) : PyErr :=
  ⟨"'" ++ pyTypeName v ++ "' object has no attribute 'lower'"⟩

/-- Last-occurrence lookup in an association list.  Python's json.loads keeps
the last of duplicate keys, so dict lookup on a decoded object reads the
last binding of a key. -/
def objGetLast (kvs : List (String × Value)) (k : String) : Option Value :=
  match kvs with
  | [] => none
  | (k1, v1) :: rest =>
    match objGetLast rest k with
    | some v => some v
    | none => if k1 = k then some v1 else none

/-- Python dict.get(k, d) on a JSON value: succeeds on dicts, raises
AttributeError on every other type. -/
def pyGetD (v : Value) (k : String) (d : Value) : Except PyErr Value :=
  match v with
  | .obj kvs => .ok ((objGetLast kvs k).getD d)
  | _ => .error (attrNoGet v)

/-- Python truthiness of a JSON value (None, False, 0, empty str/list/dict
are falsy). -/
def pyFalsy : Value → Bool
  | .null => true
  | .bool b => !b
  | .int n => n = 0
  | .str s => s = ""
  | .arr xs => xs.isEmpty
  | .obj kvs => kvs.isEmpty

/-- Decimal digits of a natural number, most significant first. -/
def natChars (n : Nat) : List Char :=
  if _h : n < 10 then [Nat.digitChar n]
  else natChars (n / 10) ++ [Nat.digitChar (n % 10)]
  decreasing_by
    exact Nat.div_lt_self (by omega) (by omega)

/-- Decimal rendering of an integer, as Python str(int) and json.dumps
print it. -/
def intChars (n : Int) : List Char :=
  if n < 0 then '-' :: natChars n.natAbs else natChars n.toNat

/-- Comma-space join, as Python renders containers. -/
def pyStrJoin : List String → String
  | [] => ""
  | [s] => s
  | s :: rest => s ++ ", " ++ pyStrJoin rest

mutual

/-- Python str(value) on a JSON value, used by the f-string that builds the
Unknown command error text.  The repr of strings inside containers is
simplified to quoting without escapes; no claim touches that case. -/
def pyStr : Value → String
  | .null => "None"
  | .bool true => "True"
  | .bool false => "False"
  | .int n => String.mk (intChars n)
  | .str s => s
  | .arr xs => "[" ++ pyStrJoin (pyReprList xs) ++ "]"
  | .obj kvs => "\x7b" ++ pyStrJoin (pyReprMembers kvs) ++ "\x7d"

/-- Python repr(value), as used for elements inside containers. -/
def pyRepr : Value → String
  | .str s => "'" ++ s ++ "'"
  | .null => "None"
  | .bool true => "True"
  | .bool false => "False"
  | .int n => String.mk (intChars n)
  | .arr xs => "[" ++ pyStrJoin (pyReprList xs) ++ "]"
  | .obj kvs => "\x7b" ++ pyStrJoin (pyReprMembers kvs) ++ "\x7d"

/-- repr of each element of a list. -/
def pyReprList : List Value → List String
  | [] => []
  | x :: xs => pyRepr x :: pyReprList xs

/-- repr of each key-value pair of a dict. -/
def pyReprMembers : List (String × Value) → List String
  | [] => []
  | (k, v) :: kvs => ("'" ++ k ++ "': " ++ pyRepr v) :: pyReprMembers kvs

end

/-- A response dict as built by the handlers: a status string plus the
result, error and count keys when the corresponding handler writes them. -/
structure Response where
  status : String
  result : Option Value
  error : Option String
  count : Option Nat

/-- The success envelope with a result, as the handlers build it. -/
def okResp (v : Value) : Response :=
  { status := "success", result := some v, error := none, count := none }

/-- The error envelope with an error text, as the handlers build it. -/
def errResp (m : String) : Response :=
  { status := "error", result := none, error := some m, count := none }

/-- The per-handler try/except Exception wrapper: a raised exception is
converted into an error envelope carrying str(e). -/
def pyTry (x : Except PyErr Response) : Except PyErr Response :=
  match x with
  | .ok r => .ok r
  | .error e => .ok (errResp e.msg)

/-- A result of os.stat. -/
structure Stat where
  size : Int
  ctime : Int
  mtime : Int
  atime : Int

/-- A result of shutil.disk_usage. -/
structure DiskUsage where
  total : Int
  used : Int
  free : Int

/-- One surviving process record from psutil.process_iter, with the fields
requested by the server.  psutil's float fields are modelled as integers. -/
structure Proc where
  pid : Int
  name : String
  username : String
  memoryPercent : Int
  cpuPercent : Int
  createTime : Int

/-- One address record from psutil.net_if_addrs. -/
structure Addr where
  family : String
  address : String
  netmask : Option String
  broadcast : Option String

/-- A completed subprocess.run invocation. -/
structure RunResult where
  returncode : Int
  stdout : String
  stderr : String

/-- The operating-system facilities the handlers consume, passed explicitly:
platform/os snapshot data, filesystem oracles, psutil snapshots and the
subprocess runner.  Fallible calls return Except to model raised OSErrors;
time and float quantities are modelled as integers. -/
structure Env where
  system : String
  node : String
  osRelease : String
  version : String
  machine : String
  processor : String
  cpuCount : Option Int
  cwd : String
  listdir : Value → Except PyErr (List String)
  statPath : String → Except PyErr Stat
  isdir : String → Bool
  diskUsage : Value → Except PyErr DiskUsage
  processes : List Proc
  vmTotal : Int
  vmAvailable : Int
  vmUsed : Int
  vmPercent : Int
  swapTotal : Int
  swapUsed : Int
  swapPercent : Int
  netIfAddrs : List (String × List Addr)
  netIfStats : List (String × Bool)
  netIo : List (String × Int × Int)
  existsPath : Value → Except PyErr Bool
  statV : Value → Except PyErr Stat
  abspath : Value → Except PyErr String
  isdirV : Value → Except PyErr Bool
  isfileV : Value → Except PyErr Bool
  islinkV : Value → Except PyErr Bool
  bootTime : Int
  timeNow : Int
  hostname : String
  fqdn : String
  runCmd : List String → Except PyErr RunResult
  walk : Value → List (String × List String × List String)

/-- An optional integer as a JSON value (os.cpu_count may return None). -/
def optIntVal : Option Int → Value
  | some n => .int n
  | none => .null

/-- An optional string as a JSON value. -/
def optStrVal : Option String → Value
  | some s => .str s
  | none => .null

/-- Whether the first characters of a char list are exactly the given list. -/
def startsWithL : List Char → List Char → Bool
  | _, [] => true
  | [], _ :: _ => false
  | h :: hs, p :: ps => h = p && startsWithL hs ps

/-- Python substring membership, pat in hay, on char lists. -/
def hasSubstr (hay pat : List Char) : Bool :=
  if startsWithL hay pat then true
  else
    match hay with
    | [] => false
    | _ :: t => hasSubstr t pat

/-- ASCII lowercasing, modelling str.lower on the strings in play. -/
def strLower (s : String) : String :=
  String.mk (s.data.map Char.toLower)

/-- Whether a string starts with the given character. -/
def strHeadIs (s : String) (c : Char) : Bool :=
  match s.data with
  | [] => false
  | a :: _ => a = c

/-- Whether a string ends with the given character. -/
def strLastIs (s : String) (c : Char) : Bool :=
  match s.data.getLast? with
  | some a => a = c
  | none => false

/-- os.path.join on POSIX paths, for the two-argument calls the server
makes. -/
def joinPath (p f : String) : String :=
  if strHeadIs f '/' then f
  else if p = "" then f
  else if strLastIs p '/' then p ++ f
  else p ++ "/" ++ f

/-- os.path.join whose first argument is a decoded JSON value: raises
TypeError unless it is a string. -/
def pyJoin (p : Value) (f : String) : Except PyErr String :=
  match p with
  | .str s => .ok (joinPath s f)
  | _ => .error ⟨"join() argument must be str, not " ++ pyTypeName p⟩

/-- os.path.basename on a POSIX path string. -/
def baseName (p : String) : String :=
  String.mk ((p.data.reverse.takeWhile (fun c => c ≠ '/')).reverse)

/-- os.path.basename on a decoded JSON value: raises TypeError unless it is
a string. -/
def pyBasename (p : Value) : Except PyErr String :=
  match p with
  | .str s => .ok (baseName s)
  | _ => .error ⟨"expected str, bytes or os.PathLike object, not " ++ pyTypeName p⟩

/-- First-occurrence lookup for dicts built by the server itself (unique
keys). -/
def lookupFirst {α : Type} : List (String × α) → String → Option α
  | [], _ => none
  | (k, v) :: rest, key => if k = key then some v else lookupFirst rest key

/-- RemoteCommandServer.get_system_info: platform and os snapshot, no
try/except and args unused. -/
def get_system_info (_args : Value) (env : Env) : Except PyErr Response :=
  .ok (okResp (.obj [
    ("system", .str env.system),
    ("node", .str env.node),
    ("release", .str env.osRelease),
    ("version", .str env.version),
    ("machine", .str env.machine),
    ("processor", .str env.processor),
    ("cpu_count", optIntVal env.cpuCount),
    ("cwd", .str env.cwd)]))

/-- The per-entry body of the listing loop in list_directory: join, stat,
and the info dict for one name. -/
def listDirInfos (env : Env) (path : Value) : List String → Except PyErr (List Value)
  | [] => .ok []
  | f :: fs => do
    let full ← pyJoin path f
    let st ← env.statPath full
    let rest ← listDirInfos env path fs
    return (Value.obj [
      ("name", .str f),
      ("size", .int st.size),
      ("modified", .int st.mtime),
      ("is_dir", .bool (env.isdir full))]) :: rest

/-- RemoteCommandServer.list_directory. -/
def list_directory (args : Value) (env : Env) : Except PyErr Response :=
  pyTry (do
    let path ← pyGetD args "path" (.str ".")
    let files ← env.listdir path
    let infos ← listDirInfos env path files
    return okResp (.arr infos))

/-- RemoteCommandServer.get_disk_space.  The float percentage is represented
by its integer approximation; a zero total raises ZeroDivisionError exactly
as the Python division does. -/
def get_disk_space (args : Value) (env : Env) : Except PyErr Response :=
  pyTry (do
    let path ← pyGetD args "path" (.str ".")
    let u ← env.diskUsage path
    if u.total = 0 then throw ⟨"division by zero"⟩
    else
      return okResp (.obj [
        ("total", .int u.total),
        ("used", .int u.used),
        ("free", .int u.free),
        ("percent_used", .int (u.used * 100 / u.total))]))

/-- One step of the stable descending insertion by memory_percent; a stable
sort agrees with Python's sorted(key=..., reverse=True) on the same key. -/
def insertByMem (p : Proc) : List Proc → List Proc
  | [] => [p]
  | q :: qs =>
    if q.memoryPercent ≤ p.memoryPercent then p :: q :: qs
    else q :: insertByMem p qs

/-- Stable descending sort by memory_percent, equal to Python's
sorted(processes, key=lambda p: p.get('memory_percent', 0), reverse=True). -/
def sortByMemDesc : List Proc → List Proc
  | [] => []
  | p :: ps => insertByMem p (sortByMemDesc ps)

/-- Python list slicing l[:n] for an integer bound, including the negative
case that drops the last n elements. -/
def pySliceInt {α : Type} (l : List α) (n : Int) : List α :=
  if 0 ≤ n then l.take n.toNat else l.take (l.length - n.natAbs)

/-- Python list slicing l[:limit] where the bound is a decoded JSON value:
integers and booleans slice, None means no bound, anything else raises
TypeError. -/
def pySlice {α : Type} (l : List α) (limit : Value) : Except PyErr (List α) :=
  match limit with
  | .int n => .ok (pySliceInt l n)
  | .null => .ok l
  | .bool b => .ok (l.take (if b then 1 else 0))
  | _ => .error ⟨"slice indices must be integers or None or have an __index__ method"⟩

/-- The JSON dict for one process record, with the keys in the order
requested from psutil.process_iter. -/
def procToValue (p : Proc) : Value :=
  .obj [
    ("pid", .int p.pid),
    ("name", .str p.name),
    ("username", .str p.username),
    ("memory_percent", .int p.memoryPercent),
    ("cpu_percent", .int p.cpuPercent),
    ("create_time", .int p.createTime)]

/-- RemoteCommandServer.get_process_list: sort the surviving records by
memory usage descending, apply the limit slice, and wrap. -/
def get_process_list (args : Value) (env : Env) : Except PyErr Response :=
  pyTry (do
    let limit ← pyGetD args "limit" (.int 10)
    let sorted := sortByMemDesc env.processes
    let sliced ← pySlice sorted limit
    return okResp (.arr (sliced.map procToValue)))

/-- RemoteCommandServer.get_memory_info. -/
def get_memory_info (_args : Value) (env : Env) : Except PyErr Response :=
  pyTry (do
    return okResp (.obj [
      ("total", .int env.vmTotal),
      ("available", .int env.vmAvailable),
      ("used", .int env.vmUsed),
      ("percent", .int env.vmPercent),
      ("swap_total", .int env.swapTotal),
      ("swap_used", .int env.swapUsed),
      ("swap_percent", .int env.swapPercent)]))

/-- The JSON dict for one interface address record. -/
def addrToValue (a : Addr) : Value :=
  .obj [
    ("family", .str a.family),
    ("address", .str a.address),
    ("netmask", optStrVal a.netmask),
    ("broadcast", optStrVal a.broadcast)]

/-- The interface_info dict of get_network_info: addresses and is_up, plus
byte counters when the interface has them. -/
def ifaceInfo (env : Env) (iface : String) (addrs : List Addr) : Value :=
  .obj ([
    ("addresses", .arr (addrs.map addrToValue)),
    ("is_up",
      match lookupFirst env.netIfStats iface with
      | some b => .bool b
      | none => .null)] ++
    (match lookupFirst env.netIo iface with
     | some (s, r) => [("bytes_sent", .int s), ("bytes_recv", .int r)]
     | none => []))

/-- RemoteCommandServer.get_network_info. -/
def get_network_info (_args : Value) (env : Env) : Except PyErr Response :=
  pyTry (do
    return okResp (.obj (env.netIfAddrs.map (fun p => (p.1, ifaceInfo env p.1 p.2)))))

/-- RemoteCommandServer.get_file_info. -/
def get_file_info (args : Value) (env : Env) : Except PyErr Response :=
  pyTry (do
    let path ← pyGetD args "path" .null
    if pyFalsy path then return errResp "No path specified"
    else do
      let ex ← env.existsPath path
      if !ex then return errResp "File not found"
      else do
        let st ← env.statV path
        let nm ← pyBasename path
        let ab ← env.abspath path
        let d ← env.isdirV path
        let f ← env.isfileV path
        let l ← env.islinkV path
        return okResp (.obj [
          ("name", .str nm),
          ("path", .str ab),
          ("size", .int st.size),
          ("created", .int st.ctime),
          ("modified", .int st.mtime),
          ("accessed", .int st.atime),
          ("is_dir", .bool d),
          ("is_file", .bool f),
          ("is_symlink", .bool l)]))

/-- RemoteCommandServer.get_uptime. -/
def get_uptime (_args : Value) (env : Env) : Except PyErr Response :=
  pyTry (do
    return okResp (.obj [
      ("boot_time", .int env.bootTime),
      ("uptime_seconds", .int (env.timeNow - env.bootTime))]))

/-- RemoteCommandServer.get_hostname. -/
def get_hostname (_args : Value) (env : Env) : Except PyErr Response :=
  pyTry (do
    return okResp (.obj [
      ("hostname", .str env.hostname),
      ("fqdn", .str env.fqdn)]))

/-- RemoteCommandServer.echo_message: the only handler without a try/except
wrapper; args.get raises AttributeError past its boundary when args is not
a dict. -/
def echo_message (args : Value) (_env : Env) : Except PyErr Response := do
  let message ← pyGetD args "message" (.str "")
  return okResp message

/-- RemoteCommandServer.ping_host: status follows the exit code while stdout
and stderr are both written into the envelope unconditionally. -/
def ping_host (args : Value) (env : Env) : Except PyErr Response :=
  pyTry (do
    let host ← pyGetD args "host" .null
    if pyFalsy host then return errResp "No host specified"
    else do
      let count ← pyGetD args "count" (.int 4)
      let flag := if strLower env.system = "windows" then "-n" else "-c"
      match host with
      | .str h => do
        let r ← env.runCmd ["ping", flag, pyStr count, h]
        return {
          status := if r.returncode = 0 then "success" else "error",
          result := some (.str r.stdout),
          error := some r.stderr,
          count := none }
      | _ => throw ⟨"expected str, bytes or os.PathLike object, not " ++ pyTypeName host⟩)

/-- Whether the pattern matches a directory entry name, evaluated per name
inside the loop: pattern.lower() raises AttributeError on non-strings. -/
def ffMatchName (pat : Value) (name : String) : Except PyErr Bool :=
  match pat with
  | .str p => .ok (hasSubstr (strLower name).data (strLower p).data)
  | _ => .error (attrNoLower pat)

/-- The inner loop of find_file over files + dirs of one walked directory,
appending matches and breaking as soon as 100 are collected. -/
def ffInner (env : Env) (pat : Value) (root : String) :
    List String → List Value → Except PyErr (List Value)
  | [], acc => .ok acc
  | name :: rest, acc => do
    let m ← ffMatchName pat name
    if m then
      let full := joinPath root name
      let acc1 := acc ++ [Value.obj [("path", .str full), ("is_dir", .bool (env.isdir full))]]
      if 100 ≤ acc1.length then .ok acc1 else ffInner env pat root rest acc1
    else ffInner env pat root rest acc

/-- The outer loop of find_file over the os.walk entries, breaking once 100
matches are collected. -/
def ffOuter (env : Env) (pat : Value) :
    List (String × List String × List String) → List Value → Except PyErr (List Value)
  | [], acc => .ok acc
  | (root, _dirs, files) :: rest, acc => do
    let acc1 ← ffInner env pat root (files ++ _dirs) acc
    if 100 ≤ acc1.length then .ok acc1 else ffOuter env pat rest acc1

/-- RemoteCommandServer.find_file.  The walked entry names are files then
dirs, as the source concatenates them. -/
def find_file (args : Value) (env : Env) : Except PyErr Response :=
  pyTry (do
    let pattern ← pyGetD args "pattern" .null
    let path ← pyGetD args "path" (.str ".")
    if pyFalsy pattern then return errResp "No pattern specified"
    else do
      let ms ← ffOuter env pattern (env.walk path) []
      return {
        status := "success",
        result := some (.arr ms),
        error := none,
        count := some ms.length })

/-- The command registry built in RemoteCommandServer.__init__, in the
source's insertion order; it is never mutated afterwards. -/
def commands : List (String × (Value → Env → Except PyErr Response)) := [
  ("sysinfo", get_system_info),
  ("listdir", list_directory),
  ("diskspace", get_disk_space),
  ("processlist", get_process_list),
  ("meminfo", get_memory_info),
  ("netinfo", get_network_info),
  ("fileinfo", get_file_info),
  ("uptime", get_uptime),
  ("hostname", get_hostname),
  ("echo", echo_message),
  ("ping", ping_host),
  ("findfile", find_file)]

/-- The registry's key list. -/
def commandNames : List String := commands.map Prod.fst

/-- Registry lookup for a decoded command value: string keys hit the dict,
other hashable values simply miss. -/
def lookupHandler : Value → Option (Value → Env → Except PyErr Response)
  | .str s => lookupFirst commands s
  | _ => none

/-- The outcome of processing one received message inside the while-loop of
handle_client: a reply keeps the connection open and the loop reads the next
request, every close constructor leaves the loop and the finally-block
closes the socket without sending anything for this message. -/
inductive StepResult where
  | reply (r : Response)
  | closeEof
  | closeExit
  | closeErr (e : PyErr)

/-- Whether a step result answers on the still-open connection. -/
def stepIsReply : StepResult → Bool
  | .reply _ => true
  | _ => false

/-- Python equality of the request token against the configured token
string: only an equal JSON string compares equal. -/
def tokMatches (tok : Option Value) (a : String) : Bool :=
  match tok with
  | some (.str t) => t = a
  | _ => false

/-- Whether the decoded command value equals the string exit. -/
def cmdIsExit : Value → Bool
  | .str s => s = "exit"
  | _ => false

/-- The TypeError raised by dict membership on an unhashable key. -/
def unhashableErr (v : Value) : PyErr :=
  ⟨"unhashable type: '" ++ pyTypeName v ++ "'"⟩

/-- Command dispatch, lines 112-116 of server.py: membership in the registry
dict (raising on unhashable keys), handler invocation, Unknown command on a
miss.  A handler exception propagates to the outer except and closes the
connection. -/
def dispatchCmd (env : Env) (cmd args : Value) : StepResult :=
  match cmd with
  | .arr _ => .closeErr (unhashableErr cmd)
  | .obj _ => .closeErr (unhashableErr cmd)
  | _ =>
    match lookupHandler cmd with
    | some h =>
      match h args env with
      | .ok r => .reply r
      | .error e => .closeErr e
    | none => .reply (errResp ("Unknown command: " ++ pyStr cmd))

/-- Lines 101-116 of handle_client for one extracted request: the exit check
comes first, then the auth gate when a token is configured, then dispatch. -/
def handleRequest (auth : Option String) (env : Env) (cmd args : Value)
    (tok : Option Value) : StepResult :=
  if cmdIsExit cmd then .closeExit
  else
    match auth with
    | some a =>
      if tokMatches tok a then dispatchCmd env cmd args
      else .reply (errResp "Unauthorized")
    | none => dispatchCmd env cmd args

/-- Lines 97-99 of handle_client: the three .get calls on the decoded
top-level value; a non-dict top level raises AttributeError at the first
one, which the outer except turns into a closed connection. -/
def handleValue (auth : Option String) (env : Env) (v : Value) : StepResult :=
  match v with
  | .obj kvs =>
    handleRequest auth env
      ((objGetLast kvs "command").getD (.str ""))
      ((objGetLast kvs "args").getD (.obj []))
      (objGetLast kvs "token")
  | _ => .closeErr (attrNoGet v)

/-- Modelled from the spec: strict UTF-8 decoding as bytes.decode performs
it before json.loads runs.  Continuation bytes are checked and overlong
encodings, surrogates and values above 0x10FFFF are rejected; none is
returned exactly where Python raises UnicodeDecodeError, an exception the
session loop does not catch. -/
def utf8Chars : List Nat → Option (List Char)
  | [] => some []
  | b :: rest =>
    if b < 0x80 then (utf8Chars rest).map (fun cs => Char.ofNat b :: cs)
    else if b < 0xC2 then none
    else if b < 0xE0 then
      match rest with
      | c1 :: r =>
        if 0x80 ≤ c1 ∧ c1 < 0xC0 then
          (utf8Chars r).map (fun cs => Char.ofNat ((b - 0xC0) * 64 + (c1 - 0x80)) :: cs)
        else none
      | [] => none
    else if b < 0xF0 then
      match rest with
      | c1 :: c2 :: r =>
        let n := (b - 0xE0) * 4096 + (c1 - 0x80) * 64 + (c2 - 0x80)
        if 0x80 ≤ c1 ∧ c1 < 0xC0 ∧ 0x80 ≤ c2 ∧ c2 < 0xC0 ∧ 0x800 ≤ n ∧
            (n < 0xD800 ∨ 0xDFFF < n) then
          (utf8Chars r).map (fun cs => Char.ofNat n :: cs)
        else none
      | _ => none
    else if b < 0xF5 then
      match rest with
      | c1 :: c2 :: c3 :: r =>
        let n := (b - 0xF0) * 0x40000 + (c1 - 0x80) * 4096 + (c2 - 0x80) * 64 + (c3 - 0x80)
        if 0x80 ≤ c1 ∧ c1 < 0xC0 ∧ 0x80 ≤ c2 ∧ c2 < 0xC0 ∧ 0x80 ≤ c3 ∧ c3 < 0xC0 ∧
            0x10000 ≤ n ∧ n ≤ 0x10FFFF then
          (utf8Chars r).map (fun cs => Char.ofNat n :: cs)
        else none
      | _ => none
    else none

/-- Modelled from the spec: data.decode of the received bytes. -/
def utf8DecodeAll (bs : List Nat) : Option String :=
  (utf8Chars bs).map String.mk

/-- The lowercase hex digit for one nibble, as json.dumps emits it. -/
def hexDigitChar : Nat → Char
  | 0 => '0' | 1 => '1' | 2 => '2' | 3 => '3' | 4 => '4'
  | 5 => '5' | 6 => '6' | 7 => '7' | 8 => '8' | 9 => '9'
  | 10 => 'a' | 11 => 'b' | 12 => 'c' | 13 => 'd' | 14 => 'e'
  | 15 => 'f' | _ => '0'

/-- Four lowercase hex digits of a 16-bit value. -/
def hex4 (n : Nat) : List Char :=
  [hexDigitChar (n / 4096 % 16), hexDigitChar (n / 256 % 16),
   hexDigitChar (n / 16 % 16), hexDigitChar (n % 16)]

/-- Modelled from the spec: the escaping json.dumps applies to one character
with its default ensure_ascii behaviour: short escapes for the usual control
characters, u-escapes for other controls and for everything outside
0x20..0x7E, surrogate pairs beyond 0xFFFF. -/
def escChar (c : Char) : List Char :=
  if c = '"' then ['\\', '"']
  else if c = '\\' then ['\\', '\\']
  else if c = '\n' then ['\\', 'n']
  else if c = '\t' then ['\\', 't']
  else if c = '\r' then ['\\', 'r']
  else if c = '\x08' then ['\\', 'b']
  else if c = '\x0c' then ['\\', 'f']
  else if c.toNat < 0x20 then '\\' :: 'u' :: hex4 c.toNat
  else if c.toNat ≤ 0x7E then [c]
  else if c.toNat < 0x10000 then '\\' :: 'u' :: hex4 c.toNat
  else
    ('\\' :: 'u' :: hex4 (0xD800 + (c.toNat - 0x10000) / 0x400)) ++
    ('\\' :: 'u' :: hex4 (0xDC00 + (c.toNat - 0x10000) % 0x400))

/-- Escaping applied to a whole string body. -/
def escList : List Char → List Char
  | [] => []
  | c :: cs => escChar c ++ escList cs

mutual

/-- Modelled from the spec: json.dumps with its default separators, as a
character list.  Objects keep their association-list order, exactly as
Python dicts serialize in insertion order. -/
def encV : Value → List Char
  | .null => ['n', 'u', 'l', 'l']
  | .bool b => if b then ['t', 'r', 'u', 'e'] else ['f', 'a', 'l', 's', 'e']
  | .int n => intChars n
  | .str s => '"' :: (escList s.data ++ ['"'])
  | .arr l => '[' :: encArrBody l
  | .obj m => '\x7b' :: encObjBody m

/-- What follows the opening bracket of an array. -/
def encArrBody : List Value → List Char
  | [] => [']']
  | x :: xs => encV x ++ (encArrTail xs ++ [']'])

/-- The comma-separated continuation of an array. -/
def encArrTail : List Value → List Char
  | [] => []
  | y :: ys => ',' :: ' ' :: (encV y ++ encArrTail ys)

/-- What follows the opening brace of an object. -/
def encObjBody : List (String × Value) → List Char
  | [] => ['\x7d']
  | (k, v) :: kvs => encMember k v ++ (encObjTail kvs ++ ['\x7d'])

/-- One encoded key-value member. -/
def encMember (k : String) (v : Value) : List Char :=
  '"' :: (escList k.data ++ ('"' :: ':' :: ' ' :: encV v))

/-- The comma-separated continuation of an object. -/
def encObjTail : List (String × Value) → List Char
  | [] => []
  | (k, v) :: kvs => ',' :: ' ' :: (encMember k v ++ encObjTail kvs)

end

/-- Modelled from the spec: encode of the wire codec, json.dumps as a
string. -/
def encodeJson (v : Value) : String :=
  String.mk (encV v)

/-- JSON insignificant whitespace. -/
def isWsChar (c : Char) : Bool :=
  c = ' ' || c = '\t' || c = '\n' || c = '\r'

/-- Skip insignificant whitespace. -/
def skipWs : List Char → List Char
  | [] => []
  | c :: r => if isWsChar c then skipWs r else c :: r

/-- ASCII decimal digit test. -/
def isDigitChar (c : Char) : Bool :=
  decide (48 ≤ c.toNat) && decide (c.toNat ≤ 57)

/-- The numeric value of an ASCII decimal digit. -/
def digitVal (c : Char) : Nat :=
  c.toNat - 48

/-- The numeric value of a hex digit in either case, none otherwise. -/
def hexVal? (c : Char) : Option Nat :=
  if 48 ≤ c.toNat ∧ c.toNat ≤ 57 then some (c.toNat - 48)
  else if 97 ≤ c.toNat ∧ c.toNat ≤ 102 then some (c.toNat - 87)
  else if 65 ≤ c.toNat ∧ c.toNat ≤ 70 then some (c.toNat - 55)
  else none

/-- Split the maximal run of decimal digits from the front. -/
def spanDigits : List Char → List Char × List Char
  | [] => ([], [])
  | c :: r =>
    if isDigitChar c then
      let p := spanDigits r
      (c :: p.1, p.2)
    else ([], c :: r)

/-- Accumulate the value of a digit run. -/
def digitsValAux (acc : Nat) : List Char → Nat
  | [] => acc
  | c :: r => digitsValAux (acc * 10 + digitVal c) r

/-- The value of a digit run, most significant first. -/
def digitsVal (ds : List Char) : Nat :=
  digitsValAux 0 ds

/-- Whether a digit run has a forbidden leading zero. -/
def dsLeadZero : List Char → Bool
  | c :: _ :: _ => c = '0'
  | _ => false

/-- Whether the remainder begins a fraction or exponent, which would make
the literal a float; float literals are outside the model. -/
def numCont : List Char → Bool
  | c :: _ => c = '.' || c = 'e' || c = 'E'
  | [] => false

/-- Parse a JSON natural number literal: a nonempty digit run without
leading zeros, not continued by a fraction or exponent. -/
def pNat (cs : List Char) : Option (Nat × List Char) :=
  let p := spanDigits cs
  if p.1.isEmpty then none
  else if dsLeadZero p.1 then none
  else if numCont p.2 then none
  else some (digitsVal p.1, p.2)

/-- Expect an exact run of characters. -/
def expectChars : List Char → List Char → Option (List Char)
  | [], cs => some cs
  | e :: es, c :: cs => if c = e then expectChars es cs else none
  | _ :: _, [] => none

/-- Finish a keyword literal. -/
def pLit (lit : List Char) (v : Value) (cs : List Char) : Option (Value × List Char) :=
  match expectChars lit cs with
  | some r => some (v, r)
  | none => none

/-- Unescape a single-character escape. -/
def unescChar (e : Char) : Option Char :=
  if e = '"' then some '"'
  else if e = '\\' then some '\\'
  else if e = '/' then some '/'
  else if e = 'b' then some '\x08'
  else if e = 'f' then some '\x0c'
  else if e = 'n' then some '\n'
  else if e = 'r' then some '\r'
  else if e = 't' then some '\t'
  else none

/-- Parse a string body after the opening quote, in json.loads strict mode:
raw control characters are rejected, u-escapes are decoded with surrogate
pairs combined; lone surrogates are rejected (they cannot inhabit Char).
Fuelled by at least the number of characters to be consumed. -/
def pStrBody : Nat → List Char → Option (List Char × List Char)
  | 0, _ => none
  | _ + 1, [] => none
  | f + 1, c :: r =>
    if c = '"' then some ([], r)
    else if c = '\\' then
      match r with
      | [] => none
      | e :: r1 =>
        if e = 'u' then
          match r1 with
          | h1 :: h2 :: h3 :: h4 :: r2 =>
            match hexVal? h1, hexVal? h2, hexVal? h3, hexVal? h4 with
            | some a, some b, some c4, some d =>
              let n := a * 4096 + b * 256 + c4 * 16 + d
              if n < 0xD800 ∨ 0xDFFF < n then
                match pStrBody f r2 with
                | some (s, r3) => some (Char.ofNat n :: s, r3)
                | none => none
              else if n < 0xDC00 then
                match r2 with
                | '\\' :: 'u' :: g1 :: g2 :: g3 :: g4 :: r3 =>
                  match hexVal? g1, hexVal? g2, hexVal? g3, hexVal? g4 with
                  | some a2, some b2, some c2, some d2 =>
                    let m := a2 * 4096 + b2 * 256 + c2 * 16 + d2
                    if 0xDC00 ≤ m ∧ m ≤ 0xDFFF then
                      match pStrBody f r3 with
                      | some (s, r4) =>
                        some (Char.ofNat (0x10000 + (n - 0xD800) * 0x400 + (m - 0xDC00)) :: s, r4)
                      | none => none
                    else none
                  | _, _, _, _ => none
                | _ => none
              else none
            | _, _, _, _ => none
          | _ => none
        else
          match unescChar e with
          | some u =>
            match pStrBody f r1 with
            | some (s, r2) => some (u :: s, r2)
            | none => none
          | none => none
    else if c.toNat < 0x20 then none
    else
      match pStrBody f r with
      | some (s, r1) => some (c :: s, r1)
      | none => none

mutual

/-- Modelled from the spec: the recursive-descent value scanner of
json.loads restricted to the float-free values the model represents,
fuelled by the remaining nesting budget; the acceptor vVal below covers
the full loads grammar. -/
def pVal : Nat → List Char → Option (Value × List Char)
  | 0, _ => none
  | f + 1, cs =>
    match skipWs cs with
    | [] => none
    | c :: r =>
      if c = 'n' then pLit ['u', 'l', 'l'] .null r
      else if c = 't' then pLit ['r', 'u', 'e'] (.bool true) r
      else if c = 'f' then pLit ['a', 'l', 's', 'e'] (.bool false) r
      else if c = '"' then
        match pStrBody (r.length + 1) r with
        | some (s, r1) => some (.str (String.mk s), r1)
        | none => none
      else if c = '[' then pArr f r
      else if c = '\x7b' then pObj f r
      else if c = '-' then
        match pNat r with
        | some (m, r1) => some (.int (-(m : Int)), r1)
        | none => none
      else if isDigitChar c then
        match pNat (c :: r) with
        | some (m, r1) => some (.int (m : Int), r1)
        | none => none
      else none

/-- Parse what follows the opening bracket of an array. -/
def pArr : Nat → List Char → Option (Value × List Char)
  | 0, _ => none
  | f + 1, cs =>
    match skipWs cs with
    | [] => none
    | c :: r =>
      if c = ']' then some (.arr [], r)
      else
        match pVal f (c :: r) with
        | some (v, r1) =>
          match pElems f r1 with
          | some (vs, r2) => some (.arr (v :: vs), r2)
          | none => none
        | none => none

/-- Parse the comma-separated continuation of an array. -/
def pElems : Nat → List Char → Option (List Value × List Char)
  | 0, _ => none
  | f + 1, cs =>
    match skipWs cs with
    | [] => none
    | c :: r =>
      if c = ']' then some ([], r)
      else if c = ',' then
        match pVal f r with
        | some (v, r1) =>
          match pElems f r1 with
          | some (vs, r2) => some (v :: vs, r2)
          | none => none
        | none => none
      else none

/-- Parse what follows the opening brace of an object. -/
def pObj : Nat → List Char → Option (Value × List Char)
  | 0, _ => none
  | f + 1, cs =>
    match skipWs cs with
    | [] => none
    | c :: r =>
      if c = '\x7d' then some (.obj [], r)
      else if c = '"' then
        match pStrBody (r.length + 1) r with
        | some (k, r1) =>
          match skipWs r1 with
          | ':' :: r2 =>
            match pVal f r2 with
            | some (v, r3) =>
              match pMembers f r3 with
              | some (kvs, r4) => some (.obj ((String.mk k, v) :: kvs), r4)
              | none => none
            | none => none
          | _ => none
        | none => none
      else none

/-- Parse the comma-separated continuation of an object. -/
def pMembers : Nat → List Char → Option (List (String × Value) × List Char)
  | 0, _ => none
  | f + 1, cs =>
    match skipWs cs with
    | [] => none
    | c :: r =>
      if c = '\x7d' then some ([], r)
      else if c = ',' then
        match skipWs r with
        | '"' :: r1 =>
          match pStrBody (r1.length + 1) r1 with
          | some (k, r2) =>
            match skipWs r2 with
            | ':' :: r3 =>
              match pVal f r3 with
              | some (v, r4) =>
                match pMembers f r4 with
                | some (kvs, r5) => some ((String.mk k, v) :: kvs, r5)
                | none => none
              | none => none
            | _ => none
          | none => none
        | _ => none
      else none

end

/-- Modelled from the spec: decode of the wire codec, json.loads on a
string: one value, optionally surrounded by whitespace, nothing trailing. -/
def parseJson (s : String) : Option Value :=
  match pVal (s.data.length + 1) s.data with
  | some (v, rest) => if (skipWs rest).isEmpty then some v else none
  | none => none

/-- Modelled from the spec: the integer part of a JSON number literal as the
scanner matches it, the optional sign being handled by the caller: a zero, or
a nonzero digit followed by further digits. -/
def vIntPart : List Char → Option (List Char)
  | [] => none
  | c :: r =>
    if c = '0' then some r
    else if isDigitChar c then some (spanDigits r).2
    else none

/-- Modelled from the spec: the optional fraction of a JSON number literal, a
dot followed by one or more digits; anything else is left unconsumed. -/
def vFrac (cs : List Char) : List Char :=
  match cs with
  | c :: r =>
    if c = '.' then
      let p := spanDigits r
      if p.1.isEmpty then cs else p.2
    else cs
  | [] => cs

/-- Modelled from the spec: the optional exponent of a JSON number literal,
e or E, an optional sign and one or more digits; anything else is left
unconsumed. -/
def vExp (cs : List Char) : List Char :=
  match cs with
  | c :: r =>
    if c = 'e' ∨ c = 'E' then
      match r with
      | s :: r1 =>
        if s = '+' ∨ s = '-' then
          let p := spanDigits r1
          if p.1.isEmpty then cs else p.2
        else
          let p := spanDigits r
          if p.1.isEmpty then cs else p.2
      | [] => cs
    else cs
  | [] => cs

/-- Modelled from the spec: a full JSON number literal after its optional
sign, including the fraction and exponent forms that json.loads reads as
floats. -/
def vNum (cs : List Char) : Option (List Char) :=
  match vIntPart cs with
  | some r => some (vExp (vFrac r))
  | none => none

/-- Modelled from the spec: whether json.loads accepts a string body after
the opening quote: raw characters above the control range, the named escapes
and u-escapes of any four hex digits, lone surrogates included. Fuelled by
at least the number of characters to be consumed. -/
def vStrBody : Nat → List Char → Option (List Char)
  | 0, _ => none
  | _ + 1, [] => none
  | f + 1, c :: r =>
    if c = '"' then some r
    else if c = '\\' then
      match r with
      | [] => none
      | e :: r1 =>
        if e = 'u' then
          match r1 with
          | h1 :: h2 :: h3 :: h4 :: r2 =>
            match hexVal? h1, hexVal? h2, hexVal? h3, hexVal? h4 with
            | some _, some _, some _, some _ => vStrBody f r2
            | _, _, _, _ => none
          | _ => none
        else
          match unescChar e with
          | some _ => vStrBody f r1
          | none => none
    else if c.toNat < 0x20 then none
    else vStrBody f r

mutual

/-- Modelled from the spec: whether json.loads accepts a value at the front
of the text, returning what is left; unlike the value scanner pVal, whose
result type has no float, it also accepts float literals and the NaN,
Infinity and -Infinity constants. -/
def vVal : Nat → List Char → Option (List Char)
  | 0, _ => none
  | f + 1, cs =>
    match skipWs cs with
    | [] => none
    | c :: r =>
      if c = 'n' then expectChars ['u', 'l', 'l'] r
      else if c = 't' then expectChars ['r', 'u', 'e'] r
      else if c = 'f' then expectChars ['a', 'l', 's', 'e'] r
      else if c = '"' then vStrBody (r.length + 1) r
      else if c = '[' then vArr f r
      else if c = '\x7b' then vObj f r
      else if c = 'N' then expectChars ['a', 'N'] r
      else if c = 'I' then expectChars ['n', 'f', 'i', 'n', 'i', 't', 'y'] r
      else if c = '-' then
        match r with
        | r0 :: r1 =>
          if r0 = 'I' then expectChars ['n', 'f', 'i', 'n', 'i', 't', 'y'] r1
          else vNum (r0 :: r1)
        | [] => none
      else if isDigitChar c then vNum (c :: r)
      else none

/-- Modelled from the spec: json.loads after the opening bracket of an
array. -/
def vArr : Nat → List Char → Option (List Char)
  | 0, _ => none
  | f + 1, cs =>
    match skipWs cs with
    | [] => none
    | c :: r =>
      if c = ']' then some r
      else
        match vVal f (c :: r) with
        | some r1 => vElems f r1
        | none => none

/-- Modelled from the spec: json.loads on the comma-separated continuation
of an array. -/
def vElems : Nat → List Char → Option (List Char)
  | 0, _ => none
  | f + 1, cs =>
    match skipWs cs with
    | [] => none
    | c :: r =>
      if c = ']' then some r
      else if c = ',' then
        match vVal f r with
        | some r1 => vElems f r1
        | none => none
      else none

/-- Modelled from the spec: json.loads after the opening brace of an
object. -/
def vObj : Nat → List Char → Option (List Char)
  | 0, _ => none
  | f + 1, cs =>
    match skipWs cs with
    | [] => none
    | c :: r =>
      if c = '\x7d' then some r
      else if c = '"' then
        match vStrBody (r.length + 1) r with
        | some r1 =>
          match skipWs r1 with
          | ':' :: r2 =>
            match vVal f r2 with
            | some r3 => vMembers f r3
            | none => none
          | _ => none
        | none => none
      else none

/-- Modelled from the spec: json.loads on the comma-separated continuation
of an object. -/
def vMembers : Nat → List Char → Option (List Char)
  | 0, _ => none
  | f + 1, cs =>
    match skipWs cs with
    | [] => none
    | c :: r =>
      if c = '\x7d' then some r
      else if c = ',' then
        match skipWs r with
        | '"' :: r1 =>
          match vStrBody (r1.length + 1) r1 with
          | some r2 =>
            match skipWs r2 with
            | ':' :: r3 =>
              match vVal f r3 with
              | some r4 => vMembers f r4
              | none => none
            | _ => none
          | none => none
        | _ => none
      else none

end

/-- Modelled from the spec: whether json.loads accepts the whole string as
one JSON document: one value, optionally surrounded by whitespace, nothing
trailing. -/
def loadsOk (s : String) : Bool :=
  match vVal (s.data.length + 1) s.data with
  | some rest => (skipWs rest).isEmpty
  | none => false

/-- The UnicodeDecodeError text prefix raised on invalid UTF-8 input. -/
def utf8Err : PyErr :=
  ⟨"'utf-8' codec can't decode byte"⟩

/-- One iteration of the while-loop of handle_client on one received chunk:
empty bytes end the session, invalid UTF-8 raises out of the inner try and
closes the session, invalid JSON is answered with Invalid command format on
the open connection, and a decoded value is processed. -/
def handleMessage (auth : Option String) (env : Env) (data : List Nat) : StepResult :=
  if data.isEmpty then .closeEof
  else
    match utf8DecodeAll data with
    | none => .closeErr utf8Err
    | some s =>
      match parseJson s with
      | none => .reply (errResp "Invalid command format")
      | some v => handleValue auth env v

/-- Whether received bytes are a valid JSON message: they decode as UTF-8
to a string json.loads accepts. -/
def bytesValidJson (data : List Nat) : Bool :=
  match utf8DecodeAll data with
  | none => false
  | some s => loadsOk s

/-- Whether a handler invocation returned normally rather than raising. -/
def exceptOk {ε α : Type} : Except ε α → Bool
  | .ok _ => true
  | .error _ => false

/-- The envelope exclusivity the spec asserts: a success carries a result
and no error key, an error carries an error text and no result key. -/
def exclusiveB (r : Response) : Bool :=
  (if r.status = "success" then r.result.isSome && r.error.isNone else true) &&
  (if r.status = "error" then r.error.isSome && r.result.isNone else true)

/-- Whether a request passes the auth gate: no token configured, or the
request token matches. -/
def authOk (auth : Option String) (tok : Option Value) : Prop :=
  match auth with
  | none => True
  | some a => tokMatches tok a = true

/-- Whether a remainder may legally follow an encoded number: it must not
begin with a digit or a fraction/exponent marker. -/
def delimOk : List Char → Bool
  | [] => true
  | c :: _ => !(isDigitChar c || c = '.' || c = 'e' || c = 'E')

/-- A concrete quiet environment used to instantiate witnesses and
counterexamples. -/
def env0 : Env := {
  system := "Linux"
  node := "host"
  osRelease := "6.1"
  version := "v"
  machine := "x86_64"
  processor := "x86_64"
  cpuCount := some 4
  cwd := "/srv"
  listdir := fun _ => .ok []
  statPath := fun _ => .ok ⟨0, 0, 0, 0⟩
  isdir := fun _ => false
  diskUsage := fun _ => .ok ⟨1, 0, 1⟩
  processes := []
  vmTotal := 0
  vmAvailable := 0
  vmUsed := 0
  vmPercent := 0
  swapTotal := 0
  swapUsed := 0
  swapPercent := 0
  netIfAddrs := []
  netIfStats := []
  netIo := []
  existsPath := fun _ => .ok false
  statV := fun _ => .ok ⟨0, 0, 0, 0⟩
  abspath := fun _ => .ok "/"
  isdirV := fun _ => .ok false
  isfileV := fun _ => .ok false
  islinkV := fun _ => .ok false
  bootTime := 0
  timeNow := 0
  hostname := "host"
  fqdn := "host.local"
  runCmd := fun _ => .ok ⟨0, "", ""⟩
  walk := fun _ => [] }

/-- An environment whose ping utility exits nonzero with output on both
streams, as a real failed ping does. -/
def envPing : Env :=
  { env0 with runCmd := fun _ => .ok ⟨1, "PING output", "ping: failure"⟩ }

/-- The envelope a failed ping produces under envPing: status error while
both result and error are populated. -/
def pingFailResp : Response :=
  { status := "error", result := some (.str "PING output"),
    error := some "ping: failure", count := none }

/-- An environment whose walk yields one directory holding 150 files all
matching the pattern log. -/
def envWalk : Env :=
  { env0 with walk := fun _ => [(".", [], List.replicate 150 "log.txt")] }

/-- Every normally-returned response of a computation satisfies the
envelope exclusivity. -/
def goodOk (x : Except PyErr Response) : Prop :=
  ∀ r, x = .ok r → exclusiveB r = true

/-!
Theorems.  First the codec lemmas leading to the round-trip property, then
the handler lemmas, then one theorem per spec claim together with its
witness or counterexample.
-/

/-- Decimal digit characters are produced below ten. -/
theorem digit_char_is_digit (m : Nat) (h : m < 10) : isDigitChar m.digitChar = true := by
  interval_cases m <;> decide

/-- digitVal inverts Nat.digitChar below ten. -/
theorem digit_char_val (m : Nat) (h : m < 10) : digitVal m.digitChar = m := by
  interval_cases m <;> decide

/-- A nonzero digit does not print as the zero character. -/
theorem digit_char_ne_zero (m : Nat) (h1 : 1 ≤ m) (h2 : m < 10) : m.digitChar ≠ '0' := by
  interval_cases m <;> decide

/-- Every character of a printed natural number is a decimal digit. -/
theorem natChars_all_digits (n : Nat) : ∀ c ∈ natChars n, isDigitChar c = true := by
  induction n using natChars.induct with
  | case1 n h =>
    rw [natChars, dif_pos h]
    intro c hc
    rw [List.mem_singleton] at hc
    subst hc
    exact digit_char_is_digit n h
  | case2 n h ih =>
    rw [natChars, dif_neg h]
    intro c hc
    rw [List.mem_append] at hc
    rcases hc with hc | hc
    · exact ih c hc
    · rw [List.mem_singleton] at hc
      subst hc
      exact digit_char_is_digit _ (Nat.mod_lt _ (by omega))

/-- A printed natural number is nonempty, and never starts with the zero
character unless it is zero itself. -/
theorem natChars_cons (n : Nat) : ∃ c cs, natChars n = c :: cs ∧ (1 ≤ n → c ≠ '0') := by
  induction n using natChars.induct with
  | case1 n h =>
    rw [natChars, dif_pos h]
    refine ⟨n.digitChar, [], rfl, ?_⟩
    intro h1
    exact digit_char_ne_zero n h1 h
  | case2 n h ih =>
    rw [natChars, dif_neg h]
    rcases ih with ⟨c, cs, hc, h0⟩
    refine ⟨c, cs ++ [(n % 10).digitChar], ?_, ?_⟩
    · rw [hc]
      rfl
    · intro _
      exact h0 (by omega)

/-- Appending one digit multiplies the accumulated value by ten. -/
theorem digitsValAux_append (acc : Nat) (xs : List Char) (c : Char) :
    digitsValAux acc (xs ++ [c]) = (digitsValAux acc xs) * 10 + digitVal c := by
  induction xs generalizing acc with
  | nil => rfl
  | cons x xs ih =>
    rw [List.cons_append]
    rw [show digitsValAux acc (x :: (xs ++ [c]))
        = digitsValAux (acc * 10 + digitVal x) (xs ++ [c]) from rfl]
    exact ih (acc * 10 + digitVal x)

/-- Reading back the printed digits of a natural number recovers it. -/
theorem digitsVal_natChars (n : Nat) : digitsVal (natChars n) = n := by
  induction n using natChars.induct with
  | case1 n h =>
    rw [natChars, dif_pos h]
    have hd := digit_char_val n h
    have he : digitsVal [n.digitChar] = 0 * 10 + digitVal n.digitChar := rfl
    omega
  | case2 n h ih =>
    rw [natChars, dif_neg h]
    simp only [digitsVal] at ih ⊢
    rw [digitsValAux_append, ih]
    have h10 : n % 10 < 10 := Nat.mod_lt _ (by omega)
    have := digit_char_val _ h10
    omega

/-- What a legal number delimiter excludes. -/
theorem delimOk_facts (c : Char) (r : List Char) (h : delimOk (c :: r) = true) :
    isDigitChar c = false ∧ (c = '.') = False ∧ (c = 'e') = False ∧ (c = 'E') = False := by
  simp [delimOk] at h
  obtain ⟨⟨⟨h1, h2⟩, h3⟩, h4⟩ := h
  exact ⟨h1, eq_false h2, eq_false h3, eq_false h4⟩

/-- The digit span of a printed digit run followed by a delimiter. -/
theorem spanDigits_append (ds rest : List Char)
    (hds : ∀ c ∈ ds, isDigitChar c = true)
    (hrest : delimOk rest = true) :
    spanDigits (ds ++ rest) = (ds, rest) := by
  induction ds with
  | nil =>
    cases rest with
    | nil => rfl
    | cons c r =>
      have hf := (delimOk_facts c r hrest).1
      rw [List.nil_append]
      rw [show spanDigits (c :: r)
          = if isDigitChar c then (c :: (spanDigits r).1, (spanDigits r).2) else ([], c :: r) from rfl]
      rw [hf]
      simp
  | cons d ds ih =>
    have hd := hds d (by simp)
    rw [List.cons_append]
    rw [show spanDigits (d :: (ds ++ rest))
        = if isDigitChar d then (d :: (spanDigits (ds ++ rest)).1, (spanDigits (ds ++ rest)).2)
          else ([], d :: (ds ++ rest)) from rfl]
    rw [hd]
    rw [ih (fun c hc => hds c (by simp [hc]))]
    simp

/-- A printed natural number never carries a forbidden leading zero. -/
theorem natChars_no_leadzero (n : Nat) : dsLeadZero (natChars n) = false := by
  induction n using natChars.induct with
  | case1 n h =>
    rw [natChars, dif_pos h]
    rfl
  | case2 n h _ih =>
    rw [natChars, dif_neg h]
    obtain ⟨c, cs, hc, h0⟩ := natChars_cons (n / 10)
    have hc0 : c ≠ '0' := h0 (by omega)
    rw [hc]
    cases cs <;> simp [dsLeadZero, hc0]

/-- A delimiter never begins a fraction or exponent. -/
theorem delimOk_numCont (rest : List Char) (h : delimOk rest = true) :
    numCont rest = false := by
  cases rest with
  | nil => rfl
  | cons c r =>
    obtain ⟨-, h1, h2, h3⟩ := delimOk_facts c r h
    simp [numCont, h1, h2, h3]

/-- Parsing the printed digits of a natural number followed by a delimiter
recovers it. -/
theorem pNat_enc (n : Nat) (rest : List Char) (h : delimOk rest = true) :
    pNat (natChars n ++ rest) = some (n, rest) := by
  have hspan := spanDigits_append (natChars n) rest (natChars_all_digits n) h
  obtain ⟨c, cs, hc, -⟩ := natChars_cons n
  have hemp : (natChars n).isEmpty = false := by
    rw [hc]
    rfl
  have hnc := delimOk_numCont rest h
  simp only [pNat, hspan]
  simp [hemp, natChars_no_leadzero n, hnc, digitsVal_natChars n]

/-- hexVal? inverts the lowercase hex digit printer below sixteen. -/
theorem hexVal_hexDigitChar (d : Nat) (h : d < 16) : hexVal? (hexDigitChar d) = some d := by
  interval_cases d <;> decide

/-- The two valid scalar ranges of a Char. -/
theorem char_valid_facts (c : Char) :
    c.toNat < 0xd800 ∨ (0xdfff < c.toNat ∧ c.toNat < 0x110000) :=
  c.valid

/-- Escaping a string never shortens it. -/
theorem escList_len (cs : List Char) : cs.length ≤ (escList cs).length := by
  induction cs with
  | nil => simp [escList]
  | cons c cs ih =>
    rw [show escList (c :: cs) = escChar c ++ escList cs from rfl]
    have h1 : 1 ≤ (escChar c).length := by
      unfold escChar
      split
      · simp
      · split
        · simp
        · split
          · simp
          · split
            · simp
            · split
              · simp
              · split
                · simp
                · split
                  · simp
                  · split
                    · simp [hex4]
                    · split
                      · simp
                      · split
                        · simp [hex4]
                        · simp [hex4]
    rw [List.length_append, List.length_cons]
    omega

/-- Reducing one u-escape whose value is not a surrogate. -/
theorem pStrBody_u (f : Nat) (x1 x2 x3 x4 : Char) (T : List Char) (a b c4 d : Nat)
    (ha : hexVal? x1 = some a) (hb : hexVal? x2 = some b)
    (hc : hexVal? x3 = some c4) (hd : hexVal? x4 = some d)
    (hrange : a * 4096 + b * 256 + c4 * 16 + d < 0xD800 ∨
      0xDFFF < a * 4096 + b * 256 + c4 * 16 + d) :
    pStrBody (f + 1) ('\\' :: 'u' :: x1 :: x2 :: x3 :: x4 :: T)
      = (match pStrBody f T with
         | some (s, r3) => some (Char.ofNat (a * 4096 + b * 256 + c4 * 16 + d) :: s, r3)
         | none => none) := by
  rw [pStrBody]
  simp only [reduceIte, ha, hb, hc, hd]
  rw [if_pos hrange, if_neg (by decide : ¬('\\' = '"'))]

/-- Reducing a surrogate-pair u-escape. -/
theorem pStrBody_u2 (f : Nat) (x1 x2 x3 x4 y1 y2 y3 y4 : Char) (T : List Char)
    (a b c4 d a2 b2 c2 d2 : Nat)
    (ha : hexVal? x1 = some a) (hb : hexVal? x2 = some b)
    (hc : hexVal? x3 = some c4) (hd : hexVal? x4 = some d)
    (ha2 : hexVal? y1 = some a2) (hb2 : hexVal? y2 = some b2)
    (hc2 : hexVal? y3 = some c2) (hd2 : hexVal? y4 = some d2)
    (hhi1 : ¬(a * 4096 + b * 256 + c4 * 16 + d < 0xD800 ∨
      0xDFFF < a * 4096 + b * 256 + c4 * 16 + d))
    (hhi2 : a * 4096 + b * 256 + c4 * 16 + d < 0xDC00)
    (hlo : 0xDC00 ≤ a2 * 4096 + b2 * 256 + c2 * 16 + d2 ∧
      a2 * 4096 + b2 * 256 + c2 * 16 + d2 ≤ 0xDFFF) :
    pStrBody (f + 1) ('\\' :: 'u' :: x1 :: x2 :: x3 :: x4 :: '\\' :: 'u' :: y1 :: y2 :: y3 :: y4 :: T)
      = (match pStrBody f T with
         | some (s, r4) =>
           some (Char.ofNat (0x10000 + (a * 4096 + b * 256 + c4 * 16 + d - 0xD800) * 0x400 +
             (a2 * 4096 + b2 * 256 + c2 * 16 + d2 - 0xDC00)) :: s, r4)
         | none => none) := by
  rw [pStrBody]
  simp only [reduceIte, ha, hb, hc, hd, ha2, hb2, hc2, hd2]
  rw [if_neg hhi1, if_pos hhi2, if_pos hlo, if_neg (by decide : ¬('\\' = '"'))]

/-- Parsing the escaped body of a string followed by the closing quote
recovers the original characters, for any sufficient fuel. -/
theorem pStrBody_esc (cs : List Char) : ∀ (f : Nat) (rest : List Char),
    cs.length + 1 ≤ f →
    pStrBody f (escList cs ++ '"' :: rest) = some (cs, rest) := by
  induction cs with
  | nil =>
    intro f rest hf
    obtain ⟨f1, rfl⟩ : ∃ f1, f = f1 + 1 := ⟨f - 1, by omega⟩
    rfl
  | cons c cs ih =>
    intro f rest hf
    obtain ⟨f1, rfl⟩ : ∃ f1, f = f1 + 1 := ⟨f - 1, by omega⟩
    have hf1 : cs.length + 1 ≤ f1 := by
      simp only [List.length_cons] at hf
      omega
    have hT := ih f1 rest hf1
    rw [show escList (c :: cs) = escChar c ++ escList cs from rfl, List.append_assoc]
    by_cases h1 : c = '"'
    · subst h1
      rw [show escChar '"' = ['\\', '"'] from rfl]
      simp only [List.cons_append, List.nil_append]
      rw [show pStrBody (f1 + 1) ('\\' :: '"' :: (escList cs ++ '"' :: rest))
          = (match pStrBody f1 (escList cs ++ '"' :: rest) with
             | some (s, r2) => some ('"' :: s, r2)
             | none => none) from rfl, hT]
    · by_cases h2 : c = '\\'
      · subst h2
        rw [show escChar '\\' = ['\\', '\\'] from rfl]
        simp only [List.cons_append, List.nil_append]
        rw [show pStrBody (f1 + 1) ('\\' :: '\\' :: (escList cs ++ '"' :: rest))
            = (match pStrBody f1 (escList cs ++ '"' :: rest) with
               | some (s, r2) => some ('\\' :: s, r2)
               | none => none) from rfl, hT]
      · by_cases h3 : c = '\n'
        · subst h3
          rw [show escChar '\n' = ['\\', 'n'] from rfl]
          simp only [List.cons_append, List.nil_append]
          rw [show pStrBody (f1 + 1) ('\\' :: 'n' :: (escList cs ++ '"' :: rest))
              = (match pStrBody f1 (escList cs ++ '"' :: rest) with
                 | some (s, r2) => some ('\n' :: s, r2)
                 | none => none) from rfl, hT]
        · by_cases h4 : c = '\t'
          · subst h4
            rw [show escChar '\t' = ['\\', 't'] from rfl]
            simp only [List.cons_append, List.nil_append]
            rw [show pStrBody (f1 + 1) ('\\' :: 't' :: (escList cs ++ '"' :: rest))
                = (match pStrBody f1 (escList cs ++ '"' :: rest) with
                   | some (s, r2) => some ('\t' :: s, r2)
                   | none => none) from rfl, hT]
          · by_cases h5 : c = '\r'
            · subst h5
              rw [show escChar '\r' = ['\\', 'r'] from rfl]
              simp only [List.cons_append, List.nil_append]
              rw [show pStrBody (f1 + 1) ('\\' :: 'r' :: (escList cs ++ '"' :: rest))
                  = (match pStrBody f1 (escList cs ++ '"' :: rest) with
                     | some (s, r2) => some ('\r' :: s, r2)
                     | none => none) from rfl, hT]
            · by_cases h6 : c = '\x08'
              · subst h6
                rw [show escChar '\x08' = ['\\', 'b'] from rfl]
                simp only [List.cons_append, List.nil_append]
                rw [show pStrBody (f1 + 1) ('\\' :: 'b' :: (escList cs ++ '"' :: rest))
                    = (match pStrBody f1 (escList cs ++ '"' :: rest) with
                       | some (s, r2) => some ('\x08' :: s, r2)
                       | none => none) from rfl, hT]
              · by_cases h7 : c = '\x0c'
                · subst h7
                  rw [show escChar '\x0c' = ['\\', 'f'] from rfl]
                  simp only [List.cons_append, List.nil_append]
                  rw [show pStrBody (f1 + 1) ('\\' :: 'f' :: (escList cs ++ '"' :: rest))
                      = (match pStrBody f1 (escList cs ++ '"' :: rest) with
                         | some (s, r2) => some ('\x0c' :: s, r2)
                         | none => none) from rfl, hT]
                · by_cases h8 : c.toNat < 0x20
                  · rw [show escChar c = '\\' :: 'u' :: hex4 c.toNat from by
                      unfold escChar
                      rw [if_neg h1, if_neg h2, if_neg h3, if_neg h4, if_neg h5,
                        if_neg h6, if_neg h7, if_pos h8]]
                    rw [show hex4 c.toNat
                        = [hexDigitChar (c.toNat / 4096 % 16), hexDigitChar (c.toNat / 256 % 16),
                           hexDigitChar (c.toNat / 16 % 16), hexDigitChar (c.toNat % 16)] from rfl]
                    simp only [List.cons_append, List.nil_append]
                    rw [pStrBody_u f1 _ _ _ _ _
                      (c.toNat / 4096 % 16) (c.toNat / 256 % 16) (c.toNat / 16 % 16) (c.toNat % 16)
                      (hexVal_hexDigitChar _ (by omega)) (hexVal_hexDigitChar _ (by omega))
                      (hexVal_hexDigitChar _ (by omega)) (hexVal_hexDigitChar _ (by omega))
                      (by left; omega)]
                    rw [hT]
                    rw [show c.toNat / 4096 % 16 * 4096 + c.toNat / 256 % 16 * 256 +
                        c.toNat / 16 % 16 * 16 + c.toNat % 16 = c.toNat from by omega]
                    rw [Char.ofNat_toNat]
                  · by_cases h9 : c.toNat ≤ 0x7E
                    · rw [show escChar c = [c] from by
                        unfold escChar
                        rw [if_neg h1, if_neg h2, if_neg h3, if_neg h4, if_neg h5,
                          if_neg h6, if_neg h7, if_neg h8, if_pos h9]]
                      simp only [List.cons_append, List.nil_append]
                      rw [pStrBody.eq_def]
                      dsimp only
                      rw [if_neg h1, if_neg h2, if_neg h8, hT]
                    · by_cases h10 : c.toNat < 0x10000
                      · rw [show escChar c = '\\' :: 'u' :: hex4 c.toNat from by
                          unfold escChar
                          rw [if_neg h1, if_neg h2, if_neg h3, if_neg h4, if_neg h5,
                            if_neg h6, if_neg h7, if_neg h8, if_neg h9, if_pos h10]]
                        rw [show hex4 c.toNat
                            = [hexDigitChar (c.toNat / 4096 % 16), hexDigitChar (c.toNat / 256 % 16),
                               hexDigitChar (c.toNat / 16 % 16), hexDigitChar (c.toNat % 16)] from rfl]
                        simp only [List.cons_append, List.nil_append]
                        have hrange : c.toNat / 4096 % 16 * 4096 + c.toNat / 256 % 16 * 256 +
                            c.toNat / 16 % 16 * 16 + c.toNat % 16 < 0xD800 ∨
                            0xDFFF < c.toNat / 4096 % 16 * 4096 + c.toNat / 256 % 16 * 256 +
                            c.toNat / 16 % 16 * 16 + c.toNat % 16 := by
                          rcases char_valid_facts c with hv | hv
                          · left
                            omega
                          · right
                            omega
                        rw [pStrBody_u f1 _ _ _ _ _
                          (c.toNat / 4096 % 16) (c.toNat / 256 % 16) (c.toNat / 16 % 16) (c.toNat % 16)
                          (hexVal_hexDigitChar _ (by omega)) (hexVal_hexDigitChar _ (by omega))
                          (hexVal_hexDigitChar _ (by omega)) (hexVal_hexDigitChar _ (by omega))
                          hrange]
                        rw [hT]
                        rw [show c.toNat / 4096 % 16 * 4096 + c.toNat / 256 % 16 * 256 +
                            c.toNat / 16 % 16 * 16 + c.toNat % 16 = c.toNat from by omega]
                        rw [Char.ofNat_toNat]
                      · have hvalid : c.toNat < 0x110000 := by
                          rcases char_valid_facts c with hv | hv
                          · omega
                          · omega
                        rw [show escChar c
                            = ('\\' :: 'u' :: hex4 (0xD800 + (c.toNat - 0x10000) / 0x400)) ++
                              ('\\' :: 'u' :: hex4 (0xDC00 + (c.toNat - 0x10000) % 0x400)) from by
                          unfold escChar
                          rw [if_neg h1, if_neg h2, if_neg h3, if_neg h4, if_neg h5,
                            if_neg h6, if_neg h7, if_neg h8, if_neg h9, if_neg h10]]
                        rw [show hex4 (0xD800 + (c.toNat - 0x10000) / 0x400)
                            = [hexDigitChar ((0xD800 + (c.toNat - 0x10000) / 0x400) / 4096 % 16),
                               hexDigitChar ((0xD800 + (c.toNat - 0x10000) / 0x400) / 256 % 16),
                               hexDigitChar ((0xD800 + (c.toNat - 0x10000) / 0x400) / 16 % 16),
                               hexDigitChar ((0xD800 + (c.toNat - 0x10000) / 0x400) % 16)] from rfl]
                        rw [show hex4 (0xDC00 + (c.toNat - 0x10000) % 0x400)
                            = [hexDigitChar ((0xDC00 + (c.toNat - 0x10000) % 0x400) / 4096 % 16),
                               hexDigitChar ((0xDC00 + (c.toNat - 0x10000) % 0x400) / 256 % 16),
                               hexDigitChar ((0xDC00 + (c.toNat - 0x10000) % 0x400) / 16 % 16),
                               hexDigitChar ((0xDC00 + (c.toNat - 0x10000) % 0x400) % 16)] from rfl]
                        simp only [List.cons_append, List.nil_append]
                        rw [pStrBody_u2 f1 _ _ _ _ _ _ _ _ _
                          ((0xD800 + (c.toNat - 0x10000) / 0x400) / 4096 % 16)
                          ((0xD800 + (c.toNat - 0x10000) / 0x400) / 256 % 16)
                          ((0xD800 + (c.toNat - 0x10000) / 0x400) / 16 % 16)
                          ((0xD800 + (c.toNat - 0x10000) / 0x400) % 16)
                          ((0xDC00 + (c.toNat - 0x10000) % 0x400) / 4096 % 16)
                          ((0xDC00 + (c.toNat - 0x10000) % 0x400) / 256 % 16)
                          ((0xDC00 + (c.toNat - 0x10000) % 0x400) / 16 % 16)
                          ((0xDC00 + (c.toNat - 0x10000) % 0x400) % 16)
                          (hexVal_hexDigitChar _ (by omega)) (hexVal_hexDigitChar _ (by omega))
                          (hexVal_hexDigitChar _ (by omega)) (hexVal_hexDigitChar _ (by omega))
                          (hexVal_hexDigitChar _ (by omega)) (hexVal_hexDigitChar _ (by omega))
                          (hexVal_hexDigitChar _ (by omega)) (hexVal_hexDigitChar _ (by omega))
                          (by omega) (by omega) (by constructor <;> omega)]
                        rw [hT]
                        rw [show 0x10000 +
                            ((0xD800 + (c.toNat - 0x10000) / 0x400) / 4096 % 16 * 4096 +
                             (0xD800 + (c.toNat - 0x10000) / 0x400) / 256 % 16 * 256 +
                             (0xD800 + (c.toNat - 0x10000) / 0x400) / 16 % 16 * 16 +
                             (0xD800 + (c.toNat - 0x10000) / 0x400) % 16 - 0xD800) * 0x400 +
                            ((0xDC00 + (c.toNat - 0x10000) % 0x400) / 4096 % 16 * 4096 +
                             (0xDC00 + (c.toNat - 0x10000) % 0x400) / 256 % 16 * 256 +
                             (0xDC00 + (c.toNat - 0x10000) % 0x400) / 16 % 16 * 16 +
                             (0xDC00 + (c.toNat - 0x10000) % 0x400) % 16 - 0xDC00)
                            = c.toNat from by omega]
                        rw [Char.ofNat_toNat]

/-- A digit is never equal to a non-digit character. -/
theorem digit_ne_char (c x : Char) (h : isDigitChar c = true) (hx : isDigitChar x = false) :
    ¬(c = x) := by
  intro he
  rw [he, hx] at h
  cases h

/-- A digit is not JSON whitespace. -/
theorem digit_not_ws (c : Char) (h : isDigitChar c = true) : isWsChar c = false := by
  simp only [isWsChar, Bool.or_eq_false_iff, decide_eq_false_iff_not]
  exact ⟨⟨⟨digit_ne_char c ' ' h (by decide), digit_ne_char c '\t' h (by decide)⟩,
    digit_ne_char c '\n' h (by decide)⟩, digit_ne_char c '\r' h (by decide)⟩

/-- Skipping whitespace passes over an initial non-whitespace character. -/
theorem skipWs_not_ws (c : Char) (r : List Char) (h : isWsChar c = false) :
    skipWs (c :: r) = c :: r := by
  rw [show skipWs (c :: r) = if isWsChar c then skipWs r else c :: r from rfl, h]
  simp

/-- Skipping whitespace consumes an initial whitespace character. -/
theorem skipWs_cons_ws (c : Char) (r : List Char) (h : isWsChar c = true) :
    skipWs (c :: r) = skipWs r := by
  rw [show skipWs (c :: r) = if isWsChar c then skipWs r else c :: r from rfl, h]
  simp

/-- The value scanner ignores one leading whitespace character. -/
theorem pVal_ws (f : Nat) (c : Char) (l : List Char) (h : isWsChar c = true) :
    pVal (f + 1) (c :: l) = pVal (f + 1) l := by
  conv_lhs => rw [pVal.eq_def]
  conv_rhs => rw [pVal.eq_def]
  dsimp only
  rw [skipWs_cons_ws c l h]

/-- What follows an encoded array element is a legal number delimiter. -/
theorem delimOk_arrTail (xs : List Value) (rest : List Char) :
    delimOk (encArrTail xs ++ ']' :: rest) = true := by
  cases xs with
  | nil =>
    rw [encArrTail]
    rfl
  | cons y ys =>
    rw [encArrTail]
    rfl

/-- What follows an encoded object value is a legal number delimiter. -/
theorem delimOk_objTail (m : List (String × Value)) (rest : List Char) :
    delimOk (encObjTail m ++ '\x7d' :: rest) = true := by
  cases m with
  | nil =>
    rw [encObjTail]
    rfl
  | cons kv kvs =>
    rw [encObjTail]
    rfl

/-- The first character of an encoded value: never whitespace and never a
closing bracket. -/
theorem encV_head (v : Value) : ∃ c cc, encV v = c :: cc ∧ isWsChar c = false ∧ ¬(c = ']') := by
  cases v with
  | null =>
    rw [encV]
    exact ⟨'n', _, rfl, by decide, by decide⟩
  | bool b =>
    cases b with
    | true =>
      rw [encV]
      exact ⟨'t', _, rfl, by decide, by decide⟩
    | false =>
      rw [encV]
      exact ⟨'f', _, rfl, by decide, by decide⟩
  | int n =>
    rw [encV, intChars]
    by_cases hn : n < 0
    · rw [if_pos hn]
      exact ⟨'-', _, rfl, by decide, by decide⟩
    · rw [if_neg hn]
      obtain ⟨c, cs, hc, -⟩ := natChars_cons n.toNat
      have hd : isDigitChar c = true := by
        apply natChars_all_digits n.toNat
        rw [hc]
        exact List.mem_cons_self c cs
      exact ⟨c, cs, hc, digit_not_ws c hd, digit_ne_char c ']' hd (by decide)⟩
  | str s =>
    rw [encV]
    exact ⟨'"', _, rfl, by decide, by decide⟩
  | arr l =>
    rw [encV]
    exact ⟨'[', _, rfl, by decide, by decide⟩
  | obj m =>
    rw [encV]
    exact ⟨'\x7b', _, rfl, by decide, by decide⟩

/-- The round-trip workhorse: at every sufficient fuel, each parser of the
decode side recovers exactly what the corresponding encoder emitted, leaving
the remainder untouched. -/
theorem parse_enc (g : Nat) :
    (∀ v rest, (encV v).length + 1 ≤ g → delimOk rest = true →
      pVal g (encV v ++ rest) = some (v, rest)) ∧
    (∀ l rest, (encArrBody l).length + 1 ≤ g →
      pArr g (encArrBody l ++ rest) = some (.arr l, rest)) ∧
    (∀ xs rest, (encArrTail xs).length + 1 ≤ g →
      pElems g (encArrTail xs ++ ']' :: rest) = some (xs, rest)) ∧
    (∀ m rest, (encObjBody m).length + 1 ≤ g →
      pObj g (encObjBody m ++ rest) = some (.obj m, rest)) ∧
    (∀ m rest, (encObjTail m).length + 1 ≤ g →
      pMembers g (encObjTail m ++ '\x7d' :: rest) = some (m, rest)) := by
  induction g using Nat.strong_induction_on with
  | _ g IH =>
  refine ⟨?_, ?_, ?_, ?_, ?_⟩
  · intro v rest hg hdelim
    cases v with
    | null =>
      rw [encV] at hg ⊢
      obtain ⟨g1, rfl⟩ : ∃ g1, g = g1 + 1 := ⟨g - 1, by simp at hg; omega⟩
      rfl
    | bool b =>
      cases b with
      | true =>
        rw [encV] at hg ⊢
        obtain ⟨g1, rfl⟩ : ∃ g1, g = g1 + 1 := ⟨g - 1, by simp at hg; omega⟩
        rfl
      | false =>
        rw [encV] at hg ⊢
        obtain ⟨g1, rfl⟩ : ∃ g1, g = g1 + 1 := ⟨g - 1, by simp at hg; omega⟩
        rfl
    | int n =>
      rw [encV] at hg ⊢
      rw [intChars] at hg ⊢
      by_cases hn : n < 0
      · rw [if_pos hn] at hg ⊢
        obtain ⟨g1, rfl⟩ : ∃ g1, g = g1 + 1 := ⟨g - 1, by simp at hg; omega⟩
        rw [List.cons_append]
        rw [show pVal (g1 + 1) ('-' :: (natChars n.natAbs ++ rest))
            = (match pNat (natChars n.natAbs ++ rest) with
               | some (m, r1) => some (.int (-(m : Int)), r1)
               | none => none) from rfl]
        rw [pNat_enc _ _ hdelim]
        dsimp only
        rw [show -(n.natAbs : Int) = n from by omega]
      · rw [if_neg hn] at hg ⊢
        obtain ⟨c, cs0, hc, -⟩ := natChars_cons n.toNat
        have hdig : isDigitChar c = true := by
          apply natChars_all_digits n.toNat
          rw [hc]
          exact List.mem_cons_self c cs0
        rw [hc] at hg ⊢
        obtain ⟨g1, rfl⟩ : ∃ g1, g = g1 + 1 := ⟨g - 1, by simp at hg; omega⟩
        rw [List.cons_append]
        rw [pVal.eq_def]
        dsimp only
        rw [skipWs_not_ws c _ (digit_not_ws c hdig)]
        dsimp only
        rw [if_neg (digit_ne_char c 'n' hdig (by decide)),
          if_neg (digit_ne_char c 't' hdig (by decide)),
          if_neg (digit_ne_char c 'f' hdig (by decide)),
          if_neg (digit_ne_char c '"' hdig (by decide)),
          if_neg (digit_ne_char c '[' hdig (by decide)),
          if_neg (digit_ne_char c '\x7b' hdig (by decide)),
          if_neg (digit_ne_char c '-' hdig (by decide)),
          if_pos hdig]
        rw [show c :: (cs0 ++ rest) = (c :: cs0) ++ rest from rfl, ← hc]
        rw [pNat_enc _ _ hdelim]
        dsimp only
        rw [show ((n.toNat : Int)) = n from by omega]
    | str s =>
      cases s with
      | mk sd =>
      rw [encV] at hg ⊢
      dsimp only at hg ⊢
      obtain ⟨g1, rfl⟩ : ∃ g1, g = g1 + 1 := ⟨g - 1, by simp at hg; omega⟩
      rw [List.cons_append, List.append_assoc]
      rw [show ['"'] ++ rest = '"' :: rest from rfl]
      rw [show pVal (g1 + 1) ('"' :: (escList sd ++ '"' :: rest))
          = (match pStrBody ((escList sd ++ '"' :: rest).length + 1) (escList sd ++ '"' :: rest) with
             | some (s1, r1) => some (.str (String.mk s1), r1)
             | none => none) from rfl]
      rw [pStrBody_esc sd _ rest (by
        have := escList_len sd
        rw [List.length_append]
        simp only [List.length_cons]
        omega)]
    | arr l =>
      rw [encV] at hg ⊢
      obtain ⟨g1, rfl⟩ : ∃ g1, g = g1 + 1 := ⟨g - 1, by simp at hg; omega⟩
      rw [List.cons_append]
      rw [show pVal (g1 + 1) ('[' :: (encArrBody l ++ rest)) = pArr g1 (encArrBody l ++ rest) from rfl]
      refine (IH g1 (by omega)).2.1 l rest ?_
      simp only [List.length_cons] at hg
      omega
    | obj m =>
      rw [encV] at hg ⊢
      obtain ⟨g1, rfl⟩ : ∃ g1, g = g1 + 1 := ⟨g - 1, by simp at hg; omega⟩
      rw [List.cons_append]
      rw [show pVal (g1 + 1) ('\x7b' :: (encObjBody m ++ rest)) = pObj g1 (encObjBody m ++ rest) from rfl]
      refine (IH g1 (by omega)).2.2.2.1 m rest ?_
      simp only [List.length_cons] at hg
      omega
  · intro l rest hg
    cases l with
    | nil =>
      rw [encArrBody] at hg ⊢
      obtain ⟨g1, rfl⟩ : ∃ g1, g = g1 + 1 := ⟨g - 1, by simp at hg; omega⟩
      rfl
    | cons x xs =>
      rw [encArrBody] at hg ⊢
      have hlen : (encV x).length + ((encArrTail xs).length + 1) + 1 ≤ g := by
        simp only [List.length_append, List.length_cons, List.length_nil] at hg
        omega
      obtain ⟨g1, rfl⟩ : ∃ g1, g = g1 + 1 := ⟨g - 1, by omega⟩
      obtain ⟨c, cc, hcx, hws, hne⟩ := encV_head x
      have hlenx : (encV x).length = cc.length + 1 := by
        rw [hcx]
        rfl
      simp only [List.append_assoc, List.cons_append, List.nil_append]
      rw [hcx, List.cons_append]
      rw [pArr.eq_def]
      dsimp only
      rw [skipWs_not_ws c _ hws]
      dsimp only
      rw [if_neg hne]
      rw [show c :: (cc ++ (encArrTail xs ++ ']' :: rest))
          = (c :: cc) ++ (encArrTail xs ++ ']' :: rest) from rfl, ← hcx]
      rw [(IH g1 (by omega)).1 x _ (by omega) (delimOk_arrTail xs rest)]
      dsimp only
      rw [(IH g1 (by omega)).2.2.1 xs rest (by omega)]
  · intro xs rest hg
    cases xs with
    | nil =>
      rw [encArrTail] at hg ⊢
      obtain ⟨g1, rfl⟩ : ∃ g1, g = g1 + 1 := ⟨g - 1, by simp at hg; omega⟩
      rfl
    | cons y ys =>
      rw [encArrTail] at hg ⊢
      have hlen : (encV y).length + ((encArrTail ys).length + 1) + 2 ≤ g := by
        simp only [List.length_cons, List.length_append] at hg
        omega
      obtain ⟨g2, rfl⟩ : ∃ g2, g = g2 + 2 := ⟨g - 2, by omega⟩
      simp only [List.append_assoc, List.cons_append, List.nil_append]
      rw [show pElems (g2 + 1 + 1) (',' :: ' ' :: (encV y ++ (encArrTail ys ++ ']' :: rest)))
          = (match pVal (g2 + 1) (' ' :: (encV y ++ (encArrTail ys ++ ']' :: rest))) with
             | some (v, r1) =>
               (match pElems (g2 + 1) r1 with
                | some (vs, r2) => some (v :: vs, r2)
                | none => none)
             | none => none) from rfl]
      rw [pVal_ws g2 ' ' _ (by decide)]
      rw [(IH (g2 + 1) (by omega)).1 y _ (by omega) (delimOk_arrTail ys rest)]
      dsimp only
      rw [(IH (g2 + 1) (by omega)).2.2.1 ys rest (by omega)]
  · intro m rest hg
    cases m with
    | nil =>
      rw [encObjBody] at hg ⊢
      obtain ⟨g1, rfl⟩ : ∃ g1, g = g1 + 1 := ⟨g - 1, by simp at hg; omega⟩
      rfl
    | cons kv kvs =>
      obtain ⟨k, v⟩ := kv
      cases k with
      | mk kd =>
      rw [encObjBody, encMember] at hg ⊢
      have hlen : (escList kd).length + (encV v).length + ((encObjTail kvs).length + 1) + 6 ≤ g + 1 := by
        simp only [List.length_append, List.length_cons, List.length_nil] at hg
        omega
      obtain ⟨g2, rfl⟩ : ∃ g2, g = g2 + 2 := ⟨g - 2, by omega⟩
      simp only [List.append_assoc, List.cons_append, List.nil_append]
      have h1 : pObj (g2 + 1 + 1)
            ('"' :: (escList kd ++ ('"' :: ':' :: ' ' :: (encV v ++ (encObjTail kvs ++ '\x7d' :: rest)))))
          = (match pVal (g2 + 1) (' ' :: (encV v ++ (encObjTail kvs ++ '\x7d' :: rest))) with
             | some (v1, r3) =>
               (match pMembers (g2 + 1) r3 with
                | some (kvs1, r4) => some (.obj ((String.mk kd, v1) :: kvs1), r4)
                | none => none)
             | none => none) := by
        rw [show pObj (g2 + 1 + 1)
              ('"' :: (escList kd ++ ('"' :: ':' :: ' ' :: (encV v ++ (encObjTail kvs ++ '\x7d' :: rest)))))
            = (match pStrBody ((escList kd ++ ('"' :: ':' :: ' ' :: (encV v ++ (encObjTail kvs ++ '\x7d' :: rest)))).length + 1)
                  (escList kd ++ ('"' :: ':' :: ' ' :: (encV v ++ (encObjTail kvs ++ '\x7d' :: rest)))) with
               | some (k1, r1) =>
                 (match skipWs r1 with
                  | ':' :: r2 =>
                    (match pVal (g2 + 1) r2 with
                     | some (v1, r3) =>
                       (match pMembers (g2 + 1) r3 with
                        | some (kvs1, r4) => some (.obj ((String.mk k1, v1) :: kvs1), r4)
                        | none => none)
                     | none => none)
                  | _ => none)
               | none => none) from rfl]
        rw [pStrBody_esc kd _ _ (by
          have := escList_len kd
          rw [List.length_append]
          omega)]
        rfl
      rw [h1]
      rw [pVal_ws g2 ' ' _ (by decide)]
      rw [(IH (g2 + 1) (by omega)).1 v _ (by omega) (delimOk_objTail kvs rest)]
      dsimp only
      rw [(IH (g2 + 1) (by omega)).2.2.2.2 kvs rest (by omega)]
  · intro m rest hg
    cases m with
    | nil =>
      rw [encObjTail] at hg ⊢
      obtain ⟨g1, rfl⟩ : ∃ g1, g = g1 + 1 := ⟨g - 1, by simp at hg; omega⟩
      rfl
    | cons kv kvs =>
      obtain ⟨k, v⟩ := kv
      cases k with
      | mk kd =>
      rw [encObjTail, encMember] at hg ⊢
      have hlen : (escList kd).length + (encV v).length + ((encObjTail kvs).length + 1) + 7 ≤ g + 1 := by
        simp only [List.length_append, List.length_cons, List.length_nil] at hg
        omega
      obtain ⟨g2, rfl⟩ : ∃ g2, g = g2 + 2 := ⟨g - 2, by omega⟩
      simp only [List.append_assoc, List.cons_append, List.nil_append]
      have h1 : pMembers (g2 + 1 + 1)
            (',' :: ' ' :: '"' :: (escList kd ++ ('"' :: ':' :: ' ' :: (encV v ++ (encObjTail kvs ++ '\x7d' :: rest)))))
          = (match pVal (g2 + 1) (' ' :: (encV v ++ (encObjTail kvs ++ '\x7d' :: rest))) with
             | some (v1, r4) =>
               (match pMembers (g2 + 1) r4 with
                | some (kvs1, r5) => some ((String.mk kd, v1) :: kvs1, r5)
                | none => none)
             | none => none) := by
        rw [show pMembers (g2 + 1 + 1)
              (',' :: ' ' :: '"' :: (escList kd ++ ('"' :: ':' :: ' ' :: (encV v ++ (encObjTail kvs ++ '\x7d' :: rest)))))
            = (match pStrBody ((escList kd ++ ('"' :: ':' :: ' ' :: (encV v ++ (encObjTail kvs ++ '\x7d' :: rest)))).length + 1)
                  (escList kd ++ ('"' :: ':' :: ' ' :: (encV v ++ (encObjTail kvs ++ '\x7d' :: rest)))) with
               | some (k1, r2) =>
                 (match skipWs r2 with
                  | ':' :: r3 =>
                    (match pVal (g2 + 1) r3 with
                     | some (v1, r4) =>
                       (match pMembers (g2 + 1) r4 with
                        | some (kvs1, r5) => some ((String.mk k1, v1) :: kvs1, r5)
                        | none => none)
                     | none => none)
                  | _ => none)
               | none => none) from rfl]
        rw [pStrBody_esc kd _ _ (by
          have := escList_len kd
          rw [List.length_append]
          omega)]
        rfl
      rw [h1]
      rw [pVal_ws g2 ' ' _ (by decide)]
      rw [(IH (g2 + 1) (by omega)).1 v _ (by omega) (delimOk_objTail kvs rest)]
      dsimp only
      rw [(IH (g2 + 1) (by omega)).2.2.2.2 kvs rest (by omega)]

/-- Decoding the encoding of any JSON value yields the value back. -/
theorem parseJson_encodeJson (v : Value) : parseJson (encodeJson v) = some v := by
  have h := (parse_enc ((encV v).length + 1)).1 v [] (le_refl _) rfl
  rw [List.append_nil] at h
  rw [parseJson, encodeJson]
  dsimp only
  rw [h]
  rfl


/-- Unfolding of spanDigits on a cons cell. -/
theorem spanDigits_cons (c : Char) (t : List Char) :
    spanDigits (c :: t)
      = if isDigitChar c then (c :: (spanDigits t).1, (spanDigits t).2)
        else ([], c :: t) := rfl

/-- When spanDigits finds no digits it returns the list unchanged. -/
theorem spanDigits_fst_nil (l : List Char) (h : (spanDigits l).1 = []) :
    (spanDigits l).2 = l := by
  cases l with
  | nil => rfl
  | cons c t =>
    rw [spanDigits_cons] at h ⊢
    by_cases hc : isDigitChar c
    · rw [if_pos hc] at h
      simp at h
    · rw [if_neg hc]

/-- Unfolding of the integer literal scanner. -/
theorem pNat_unfold (cs : List Char) :
    pNat cs
      = (if (spanDigits cs).1.isEmpty then none
         else if dsLeadZero (spanDigits cs).1 then none
         else if numCont (spanDigits cs).2 then none
         else some (digitsVal (spanDigits cs).1, (spanDigits cs).2)) := rfl

/-- A successful integer literal starts at a digit. -/
theorem pNat_head (cs : List Char) (m : Nat) (r : List Char)
    (h : pNat cs = some (m, r)) :
    ∃ c t, cs = c :: t ∧ isDigitChar c = true := by
  cases cs with
  | nil => cases h
  | cons c t =>
    by_cases hc : isDigitChar c
    · exact ⟨c, t, rfl, hc⟩
    · rw [pNat_unfold, spanDigits_cons, if_neg hc] at h
      simp at h

/-- Without a continuation character the fraction grammar consumes nothing. -/
theorem vFrac_noCont (l : List Char) (h : numCont l = false) : vFrac l = l := by
  cases l with
  | nil => rfl
  | cons c t =>
    simp only [numCont, Bool.or_eq_false_iff, decide_eq_false_iff_not] at h
    rw [show vFrac (c :: t)
        = (if c = '.' then
             if (spanDigits t).1.isEmpty then c :: t else (spanDigits t).2
           else c :: t) from rfl]
    rw [if_neg h.1.1]

/-- Without a continuation character the exponent grammar consumes nothing. -/
theorem vExp_noCont (l : List Char) (h : numCont l = false) : vExp l = l := by
  cases l with
  | nil => rfl
  | cons c t =>
    simp only [numCont, Bool.or_eq_false_iff, decide_eq_false_iff_not] at h
    rw [show vExp (c :: t)
        = (if c = 'e' ∨ c = 'E' then
             (match t with
              | s :: r1 =>
                if s = '+' ∨ s = '-' then
                  if (spanDigits r1).1.isEmpty then c :: t else (spanDigits r1).2
                else
                  if (spanDigits t).1.isEmpty then c :: t else (spanDigits t).2
              | [] => c :: t)
           else c :: t) from rfl]
    rw [if_neg (not_or.mpr ⟨h.1.2, h.2⟩)]

/-- The loads number grammar accepts every literal the integer scanner
accepts, leaving the same remainder. -/
theorem vNum_pNat (cs : List Char) (m : Nat) (r : List Char)
    (h : pNat cs = some (m, r)) : vNum cs = some r := by
  obtain ⟨c, t, rfl, hc⟩ := pNat_head cs m r h
  rw [pNat_unfold, spanDigits_cons, if_pos hc] at h
  dsimp only at h
  rw [List.isEmpty_cons] at h
  simp only [Bool.false_eq_true, if_false] at h
  by_cases hz : dsLeadZero (c :: (spanDigits t).1) = true
  · rw [if_pos hz] at h
    cases h
  · rw [if_neg hz] at h
    by_cases hn : numCont (spanDigits t).2 = true
    · rw [if_pos hn] at h
      cases h
    · rw [if_neg hn] at h
      injection h with h1
      injection h1 with hm hr
      have hnf : numCont (spanDigits t).2 = false := by
        cases hcc : numCont (spanDigits t).2
        · rfl
        · exact absurd hcc hn
      have hint : vIntPart (c :: t) = some (spanDigits t).2 := by
        rw [show vIntPart (c :: t)
            = (if c = '0' then some t
               else if isDigitChar c then some (spanDigits t).2 else none) from rfl]
        by_cases h0 : c = '0'
        · subst h0
          rw [if_pos rfl]
          cases hp1 : (spanDigits t).1 with
          | nil => rw [spanDigits_fst_nil t hp1]
          | cons x xs =>
            exfalso
            apply hz
            rw [hp1]
            rfl
        · rw [if_neg h0, if_pos hc]
      rw [show vNum (c :: t)
          = (match vIntPart (c :: t) with
             | some r1 => some (vExp (vFrac r1))
             | none => none) from rfl, hint]
      show some (vExp (vFrac (spanDigits t).2)) = some r
      rw [vFrac_noCont _ hnf, vExp_noCont _ hnf, hr]

/-- A successful keyword literal is a successful character expectation. -/
theorem pLit_some (lit : List Char) (v w : Value) (cs r : List Char)
    (h : pLit lit v cs = some (w, r)) : expectChars lit cs = some r := by
  rw [show pLit lit v cs
      = (match expectChars lit cs with
         | some r1 => some (v, r1)
         | none => none) from rfl] at h
  cases he : expectChars lit cs with
  | none => rw [he] at h; cases h
  | some r1 =>
    rw [he] at h
    injection h with h1
    injection h1 with hw hr
    rw [hr]

/-- Whatever the strict string body scanner accepts, the loads string body
accepts with the same remainder, under any fuel beyond the text length. -/
theorem pStr_vStr (f : Nat) : ∀ (l s r : List Char),
    pStrBody f l = some (s, r) → ∀ g, l.length < g → vStrBody g l = some r := by
  induction f with
  | zero =>
    intro l s r h
    cases h
  | succ f ih =>
    intro l s r h g hg
    cases l with
    | nil => cases h
    | cons c t =>
      obtain ⟨g0, rfl⟩ : ∃ g0, g = g0 + 1 := ⟨g - 1, by omega⟩
      simp only [pStrBody] at h
      split at h
      · rename_i hc
        subst hc
        injection h with h1
        injection h1 with hs hr
        subst hr
        rfl
      · rename_i hq
        split at h
        · rename_i hb
          subst hb
          split at h
          · cases h
          · rename_i e r1
            split at h
            · rename_i hu
              subst hu
              split at h
              · rename_i x1 x2 x3 x4 r2
                split at h
                · rename_i a1 a2 a3 a4 hx1 hx2 hx3 hx4
                  split at h
                  · rename_i hrange
                    split at h
                    · rename_i s1 r3 heq
                      injection h with h1
                      injection h1 with hs hr
                      subst hr
                      simp only [vStrBody, if_true]
                      rw [hx1, hx2, hx3, hx4]
                      dsimp only
                      exact ih r2 s1 r3 heq g0 (by simp only [List.length_cons] at hg; omega)
                    · cases h
                  · rename_i hrange
                    split at h
                    · rename_i hlow
                      split at h
                      · rename_i y1 y2 y3 y4 r3
                        split at h
                        · rename_i b1 b2 b3 b4 hy1 hy2 hy3 hy4
                          split at h
                          · rename_i hpair
                            split at h
                            · rename_i s1 r4 heq
                              injection h with h1
                              injection h1 with hs hr
                              subst hr
                              simp only [vStrBody, if_true]
                              rw [hx1, hx2, hx3, hx4]
                              dsimp only
                              obtain ⟨g1, rfl⟩ : ∃ g1, g0 = g1 + 1 :=
                                ⟨g0 - 1, by simp only [List.length_cons] at hg; omega⟩
                              simp only [vStrBody, if_true]
                              rw [hy1, hy2, hy3, hy4]
                              dsimp only
                              exact ih r3 s1 r4 heq g1
                                (by simp only [List.length_cons] at hg; omega)
                            · cases h
                          · cases h
                        · cases h
                      · cases h
                    · cases h
                · cases h
              · cases h
            · rename_i hu
              split at h
              · rename_i u heq
                split at h
                · rename_i s1 r2 heq2
                  injection h with h1
                  injection h1 with hs hr
                  subst hr
                  simp only [vStrBody, if_true]
                  rw [if_neg hu, heq]
                  dsimp only
                  exact ih r1 s1 r2 heq2 g0
                    (by simp only [List.length_cons] at hg; omega)
                · cases h
              · cases h
        · rename_i hb
          split at h
          · rename_i hctl
            cases h
          · rename_i hctl
            split at h
            · rename_i s1 r1 heq
              injection h with h1
              injection h1 with hs hr
              subst hr
              simp only [vStrBody]
              rw [if_neg hq, if_neg hb, if_neg hctl]
              exact ih t s1 r1 heq g0
                (by simp only [List.length_cons] at hg; omega)
            · cases h

/-- Skipping whitespace is idempotent. -/
theorem skipWs_idem (l : List Char) : skipWs (skipWs l) = skipWs l := by
  induction l with
  | nil => rfl
  | cons c r ih =>
    by_cases hc : isWsChar c = true
    · rw [skipWs_cons_ws c r hc]
      exact ih
    · have hf : isWsChar c = false := Bool.eq_false_iff.mpr hc
      rw [skipWs_not_ws c r hf, skipWs_not_ws c r hf]

/-- The head left after skipping whitespace is not whitespace. -/
theorem skipWs_head_not_ws (l : List Char) (c : Char) (rest : List Char)
    (h : skipWs l = c :: rest) : isWsChar c = false := by
  induction l with
  | nil => cases h
  | cons d r ih =>
    by_cases hd : isWsChar d = true
    · rw [skipWs_cons_ws d r hd] at h
      exact ih h
    · have hf : isWsChar d = false := Bool.eq_false_iff.mpr hd
      rw [skipWs_not_ws d r hf] at h
      injection h with h1 h2
      subst h1
      exact hf

/-- The loads value acceptor ignores leading whitespace. -/
theorem vVal_skipWs (f : Nat) (l : List Char) :
    vVal (f + 1) l = vVal (f + 1) (skipWs l) := by
  rw [vVal, vVal, skipWs_idem]

/-- The loads array acceptor ignores leading whitespace. -/
theorem vArr_skipWs (f : Nat) (l : List Char) :
    vArr (f + 1) l = vArr (f + 1) (skipWs l) := by
  rw [vArr, vArr, skipWs_idem]

/-- The loads array continuation ignores leading whitespace. -/
theorem vElems_skipWs (f : Nat) (l : List Char) :
    vElems (f + 1) l = vElems (f + 1) (skipWs l) := by
  rw [vElems, vElems, skipWs_idem]

/-- The loads object acceptor ignores leading whitespace. -/
theorem vObj_skipWs (f : Nat) (l : List Char) :
    vObj (f + 1) l = vObj (f + 1) (skipWs l) := by
  rw [vObj, vObj, skipWs_idem]

/-- The loads object continuation ignores leading whitespace. -/
theorem vMembers_skipWs (f : Nat) (l : List Char) :
    vMembers (f + 1) l = vMembers (f + 1) (skipWs l) := by
  rw [vMembers, vMembers, skipWs_idem]

/-- Simulation of the value scanner by the loads grammar acceptor: every
text the scanner parses, the full json.loads grammar accepts with the same
remainder, production by production at equal fuel. -/
theorem pv_sim (g : Nat) :
    (∀ l v r, pVal g l = some (v, r) → vVal g l = some r) ∧
    (∀ l v r, pArr g l = some (v, r) → vArr g l = some r) ∧
    (∀ l vs r, pElems g l = some (vs, r) → vElems g l = some r) ∧
    (∀ l v r, pObj g l = some (v, r) → vObj g l = some r) ∧
    (∀ l ms r, pMembers g l = some (ms, r) → vMembers g l = some r) := by
  induction g with
  | zero =>
    refine ⟨?_, ?_, ?_, ?_, ?_⟩ <;> intro l v r h <;> cases h
  | succ f ih =>
    obtain ⟨ihV, ihA, ihE, ihO, ihM⟩ := ih
    refine ⟨?_, ?_, ?_, ?_, ?_⟩
    · intro l v r h
      simp only [pVal] at h
      cases hsw : skipWs l with
      | nil => rw [hsw] at h; cases h
      | cons c rest =>
        rw [hsw] at h
        dsimp only at h
        rw [vVal_skipWs, hsw]
        by_cases h1 : c = 'n'
        · subst h1
          rw [if_pos rfl] at h
          exact pLit_some _ _ _ _ _ h
        · rw [if_neg h1] at h
          by_cases h2 : c = 't'
          · subst h2
            rw [if_pos rfl] at h
            exact pLit_some _ _ _ _ _ h
          · rw [if_neg h2] at h
            by_cases h3 : c = 'f'
            · subst h3
              rw [if_pos rfl] at h
              exact pLit_some _ _ _ _ _ h
            · rw [if_neg h3] at h
              by_cases h4 : c = '"'
              · subst h4
                rw [if_pos rfl] at h
                cases hps : pStrBody (rest.length + 1) rest with
                | none => rw [hps] at h; cases h
                | some pk =>
                  obtain ⟨s1, r1⟩ := pk
                  rw [hps] at h
                  dsimp only at h
                  injection h with h1
                  injection h1 with hv hr
                  subst hr
                  exact pStr_vStr _ rest s1 r1 hps (rest.length + 1) (Nat.lt_succ_self _)
              · rw [if_neg h4] at h
                by_cases h5 : c = '['
                · subst h5
                  rw [if_pos rfl] at h
                  exact ihA _ _ _ h
                · rw [if_neg h5] at h
                  by_cases h6 : c = '\x7b'
                  · subst h6
                    rw [if_pos rfl] at h
                    exact ihO _ _ _ h
                  · rw [if_neg h6] at h
                    by_cases h7 : c = '-'
                    · subst h7
                      rw [if_pos rfl] at h
                      cases hpn : pNat rest with
                      | none => rw [hpn] at h; cases h
                      | some pr =>
                        obtain ⟨m, r1⟩ := pr
                        rw [hpn] at h
                        dsimp only at h
                        injection h with h1
                        injection h1 with hv hr
                        subst hr
                        obtain ⟨d, t, hrest, hd⟩ := pNat_head _ _ _ hpn
                        subst hrest
                        show (if d = 'I'
                            then expectChars ['n', 'f', 'i', 'n', 'i', 't', 'y'] t
                            else vNum (d :: t)) = some r1
                        rw [if_neg (digit_ne_char d 'I' hd (by decide))]
                        exact vNum_pNat _ _ _ hpn
                    · rw [if_neg h7] at h
                      by_cases h8 : isDigitChar c = true
                      · rw [if_pos h8] at h
                        cases hpn : pNat (c :: rest) with
                        | none => rw [hpn] at h; cases h
                        | some pr =>
                          obtain ⟨m, r1⟩ := pr
                          rw [hpn] at h
                          dsimp only at h
                          injection h with h1
                          injection h1 with hv hr
                          subst hr
                          rw [vVal]
                          rw [skipWs_not_ws c rest (digit_not_ws c h8)]
                          dsimp only
                          rw [if_neg (digit_ne_char c 'n' h8 (by decide)),
                            if_neg (digit_ne_char c 't' h8 (by decide)),
                            if_neg (digit_ne_char c 'f' h8 (by decide)),
                            if_neg (digit_ne_char c '"' h8 (by decide)),
                            if_neg (digit_ne_char c '[' h8 (by decide)),
                            if_neg (digit_ne_char c '\x7b' h8 (by decide)),
                            if_neg (digit_ne_char c 'N' h8 (by decide)),
                            if_neg (digit_ne_char c 'I' h8 (by decide)),
                            if_neg (digit_ne_char c '-' h8 (by decide)),
                            if_pos h8]
                          exact vNum_pNat _ _ _ hpn
                      · rw [if_neg h8] at h
                        cases h
    · intro l v r h
      simp only [pArr] at h
      cases hsw : skipWs l with
      | nil => rw [hsw] at h; cases h
      | cons c rest =>
        rw [hsw] at h
        dsimp only at h
        rw [vArr_skipWs, hsw]
        by_cases hc : c = ']'
        · subst hc
          rw [if_pos rfl] at h
          injection h with h1
          injection h1 with hv hr
          subst hr
          rfl
        · rw [if_neg hc] at h
          cases hpv : pVal f (c :: rest) with
          | none => rw [hpv] at h; cases h
          | some pr =>
            obtain ⟨v1, r1⟩ := pr
            rw [hpv] at h
            dsimp only at h
            cases hpe : pElems f r1 with
            | none => rw [hpe] at h; cases h
            | some pe =>
              obtain ⟨vs, r2⟩ := pe
              rw [hpe] at h
              dsimp only at h
              injection h with h1
              injection h1 with hv hr
              subst hr
              rw [vArr]
              rw [skipWs_not_ws c rest (skipWs_head_not_ws l c rest hsw)]
              dsimp only
              rw [if_neg hc, ihV _ _ _ hpv]
              dsimp only
              exact ihE _ _ _ hpe
    · intro l vs r h
      simp only [pElems] at h
      cases hsw : skipWs l with
      | nil => rw [hsw] at h; cases h
      | cons c rest =>
        rw [hsw] at h
        dsimp only at h
        rw [vElems_skipWs, hsw]
        by_cases hc : c = ']'
        · subst hc
          rw [if_pos rfl] at h
          injection h with h1
          injection h1 with hv hr
          subst hr
          rfl
        · rw [if_neg hc] at h
          by_cases hc2 : c = ','
          · subst hc2
            rw [if_pos rfl] at h
            cases hpv : pVal f rest with
            | none => rw [hpv] at h; cases h
            | some pr =>
              obtain ⟨v1, r1⟩ := pr
              rw [hpv] at h
              dsimp only at h
              cases hpe : pElems f r1 with
              | none => rw [hpe] at h; cases h
              | some pe =>
                obtain ⟨vs1, r2⟩ := pe
                rw [hpe] at h
                dsimp only at h
                injection h with h1
                injection h1 with hv hr
                subst hr
                show (match vVal f rest with
                      | some r1 => vElems f r1
                      | none => none) = some r2
                rw [ihV _ _ _ hpv]
                dsimp only
                exact ihE _ _ _ hpe
          · rw [if_neg hc2] at h
            cases h
    · intro l v r h
      simp only [pObj] at h
      cases hsw : skipWs l with
      | nil => rw [hsw] at h; cases h
      | cons c rest =>
        rw [hsw] at h
        dsimp only at h
        rw [vObj_skipWs, hsw]
        by_cases hc : c = '\x7d'
        · subst hc
          rw [if_pos rfl] at h
          injection h with h1
          injection h1 with hv hr
          subst hr
          rfl
        · rw [if_neg hc] at h
          by_cases hc2 : c = '"'
          · subst hc2
            rw [if_pos rfl] at h
            cases hps : pStrBody (rest.length + 1) rest with
            | none => rw [hps] at h; cases h
            | some pk =>
              obtain ⟨k, r1⟩ := pk
              rw [hps] at h
              dsimp only at h
              split at h
              · rename_i r2 heqc
                cases hpv : pVal f r2 with
                | none => rw [hpv] at h; cases h
                | some pr =>
                  obtain ⟨v1, r3⟩ := pr
                  rw [hpv] at h
                  dsimp only at h
                  cases hpm : pMembers f r3 with
                  | none => rw [hpm] at h; cases h
                  | some pm =>
                    obtain ⟨kvs, r4⟩ := pm
                    rw [hpm] at h
                    dsimp only at h
                    injection h with h1
                    injection h1 with hv hr
                    subst hr
                    show (match vStrBody (rest.length + 1) rest with
                          | some r1 =>
                            (match skipWs r1 with
                             | ':' :: r2 =>
                               (match vVal f r2 with
                                | some r3 => vMembers f r3
                                | none => none)
                             | _ => none)
                          | none => none) = some r4
                    rw [pStr_vStr _ rest k r1 hps (rest.length + 1) (Nat.lt_succ_self _)]
                    dsimp only
                    rw [heqc]
                    show (match vVal f r2 with
                          | some r3 => vMembers f r3
                          | none => none) = some r4
                    rw [ihV _ _ _ hpv]
                    dsimp only
                    exact ihM _ _ _ hpm
              · cases h
          · rw [if_neg hc2] at h
            cases h
    · intro l ms r h
      simp only [pMembers] at h
      cases hsw : skipWs l with
      | nil => rw [hsw] at h; cases h
      | cons c rest =>
        rw [hsw] at h
        dsimp only at h
        rw [vMembers_skipWs, hsw]
        by_cases hc : c = '\x7d'
        · subst hc
          rw [if_pos rfl] at h
          injection h with h1
          injection h1 with hv hr
          subst hr
          rfl
        · rw [if_neg hc] at h
          by_cases hc2 : c = ','
          · subst hc2
            rw [if_pos rfl] at h
            split at h
            · rename_i r1 heq1
              cases hps : pStrBody (r1.length + 1) r1 with
              | none => rw [hps] at h; cases h
              | some pk =>
                obtain ⟨k, r2⟩ := pk
                rw [hps] at h
                dsimp only at h
                split at h
                · rename_i r3 heq2
                  cases hpv : pVal f r3 with
                  | none => rw [hpv] at h; cases h
                  | some pr =>
                    obtain ⟨v1, r4⟩ := pr
                    rw [hpv] at h
                    dsimp only at h
                    cases hpm : pMembers f r4 with
                    | none => rw [hpm] at h; cases h
                    | some pm =>
                      obtain ⟨kvs, r5⟩ := pm
                      rw [hpm] at h
                      dsimp only at h
                      injection h with h1
                      injection h1 with hv hr
                      subst hr
                      show (match skipWs rest with
                            | '"' :: r1 =>
                              (match vStrBody (r1.length + 1) r1 with
                               | some r2 =>
                                 (match skipWs r2 with
                                  | ':' :: r3 =>
                                    (match vVal f r3 with
                                     | some r4 => vMembers f r4
                                     | none => none)
                                  | _ => none)
                               | none => none)
                            | _ => none) = some r5
                      rw [heq1]
                      show (match vStrBody (r1.length + 1) r1 with
                            | some r2 =>
                              (match skipWs r2 with
                               | ':' :: r3 =>
                                 (match vVal f r3 with
                                  | some r4 => vMembers f r4
                                  | none => none)
                               | _ => none)
                            | none => none) = some r5
                      rw [pStr_vStr _ r1 k r2 hps (r1.length + 1) (Nat.lt_succ_self _)]
                      dsimp only
                      rw [heq2]
                      show (match vVal f r3 with
                            | some r4 => vMembers f r4
                            | none => none) = some r5
                      rw [ihV _ _ _ hpv]
                      dsimp only
                      exact ihM _ _ _ hpm
                · cases h
            · cases h
          · rw [if_neg hc2] at h
            cases h

/-- What the model decoder accepts, json.loads accepts. -/
theorem parseJson_loadsOk (s : String) (v : Value) (h : parseJson s = some v) :
    loadsOk s = true := by
  rw [parseJson] at h
  cases hp : pVal (s.data.length + 1) s.data with
  | none => rw [hp] at h; cases h
  | some pr =>
    obtain ⟨v1, rest⟩ := pr
    rw [hp] at h
    dsimp only at h
    by_cases he : (skipWs rest).isEmpty = true
    · rw [loadsOk, (pv_sim (s.data.length + 1)).1 _ _ _ hp]
      exact he
    · rw [if_neg he] at h
      cases h

/-- What json.loads rejects, the model decoder rejects. -/
theorem loadsOk_false_parseJson (s : String) (h : loadsOk s = false) :
    parseJson s = none := by
  cases hp : parseJson s with
  | none => rfl
  | some v =>
    rw [parseJson_loadsOk s v hp] at h
    cases h

/-- The try/except wrapper never lets an exception escape. -/
theorem exceptOk_pyTry (x : Except PyErr Response) : exceptOk (pyTry x) = true := by
  cases x <;> rfl

/-- A success envelope populates exactly the result. -/
theorem exclusiveB_okResp (v : Value) : exclusiveB (okResp v) = true := rfl

/-- An error envelope populates exactly the error. -/
theorem exclusiveB_errResp (m : String) : exclusiveB (errResp m) = true := rfl

/-- Exclusivity is preserved by the try/except wrapper. -/
theorem goodOk_pyTry (x : Except PyErr Response) (h : goodOk x) : goodOk (pyTry x) := by
  intro r hr
  cases x with
  | ok a => exact h r hr
  | error e =>
    rw [show pyTry (.error e) = .ok (errResp e.msg) from rfl] at hr
    injection hr with h1
    rw [← h1]
    exact exclusiveB_errResp _

/-- Exclusivity of a bind follows from exclusivity of the continuation. -/
theorem goodOk_bind {α : Type} (x : Except PyErr α) (f : α → Except PyErr Response)
    (h : ∀ a, goodOk (f a)) : goodOk (x >>= f) := by
  intro r hr
  cases x with
  | ok a => exact h a r hr
  | error e => exact Except.noConfusion hr

/-- A raised exception returns no response. -/
theorem goodOk_error (e : PyErr) : goodOk (Except.error e : Except PyErr Response) := by
  intro r hr
  exact Except.noConfusion hr

/-- A returned success envelope is exclusive. -/
theorem goodOk_okResp (v : Value) : goodOk (Except.ok (okResp v)) := by
  intro r hr
  injection hr with h1
  rw [← h1]
  exact exclusiveB_okResp _

/-- A returned error envelope is exclusive. -/
theorem goodOk_errResp (m : String) : goodOk (Except.ok (errResp m)) := by
  intro r hr
  injection hr with h1
  rw [← h1]
  exact exclusiveB_errResp _

/-- Exclusivity splits over a conditional. -/
theorem goodOk_ite (c : Prop) [Decidable c] (x y : Except PyErr Response)
    (hx : goodOk x) (hy : goodOk y) : goodOk (if c then x else y) := by
  split
  · exact hx
  · exact hy

/-- Bind on a normal result applies the continuation. -/
@[simp] theorem except_bind_ok {α β : Type} (a : α) (f : α → Except PyErr β) :
    (Except.ok a >>= f) = f a := rfl

/-- Bind on a raised exception propagates it. -/
@[simp] theorem except_bind_error {α β : Type} (e : PyErr) (f : α → Except PyErr β) :
    ((Except.error e : Except PyErr α) >>= f) = Except.error e := rfl

/-- A normal result of the try/except wrapper is either the body result or a
converted error envelope. -/
theorem pyTry_ok (x : Except PyErr Response) (r : Response) (h : pyTry x = .ok r) :
    x = .ok r ∨ ∃ m, r = errResp m := by
  cases x with
  | ok a => exact Or.inl h
  | error e =>
    refine Or.inr ⟨e.msg, ?_⟩
    rw [show pyTry (.error e) = .ok (errResp e.msg) from rfl] at h
    injection h with h1
    rw [h1]

/-- The inner find_file loop never grows the accumulator past one hundred. -/
theorem ffInner_le (env : Env) (pat : Value) (root : String) (names : List String) :
    ∀ (acc res : List Value), acc.length ≤ 99 → ffInner env pat root names acc = .ok res →
    res.length ≤ 100 := by
  induction names with
  | nil =>
    intro acc res hacc h
    rw [show ffInner env pat root [] acc = .ok acc from rfl] at h
    injection h with h1
    subst h1
    omega
  | cons name rest ih =>
    intro acc res hacc h
    rw [show ffInner env pat root (name :: rest) acc
        = (ffMatchName pat name >>= fun m =>
            if m then
              (if 100 ≤ (acc ++ [Value.obj [("path", .str (joinPath root name)),
                  ("is_dir", .bool (env.isdir (joinPath root name)))]]).length
               then .ok (acc ++ [Value.obj [("path", .str (joinPath root name)),
                  ("is_dir", .bool (env.isdir (joinPath root name)))]])
               else ffInner env pat root rest (acc ++ [Value.obj [("path", .str (joinPath root name)),
                  ("is_dir", .bool (env.isdir (joinPath root name)))]]))
            else ffInner env pat root rest acc) from rfl] at h
    cases hm : ffMatchName pat name with
    | error e =>
      rw [hm, except_bind_error] at h
      exact Except.noConfusion h
    | ok m =>
      rw [hm, except_bind_ok] at h
      cases m with
      | false =>
        rw [if_neg (by simp)] at h
        exact ih acc res hacc h
      | true =>
        rw [if_pos rfl] at h
        have hlen1 : (acc ++ [Value.obj [("path", .str (joinPath root name)),
            ("is_dir", .bool (env.isdir (joinPath root name)))]]).length = acc.length + 1 := by
          rw [List.length_append]
          rfl
        by_cases h100 : 100 ≤ (acc ++ [Value.obj [("path", .str (joinPath root name)),
            ("is_dir", .bool (env.isdir (joinPath root name)))]]).length
        · rw [if_pos h100] at h
          injection h with h1
          subst h1
          omega
        · rw [if_neg h100] at h
          exact ih _ res (by omega) h

/-- The outer find_file loop never returns more than one hundred matches. -/
theorem ffOuter_le (env : Env) (pat : Value)
    (entries : List (String × List String × List String)) :
    ∀ (acc res : List Value), acc.length ≤ 99 → ffOuter env pat entries acc = .ok res →
    res.length ≤ 100 := by
  induction entries with
  | nil =>
    intro acc res hacc h
    rw [show ffOuter env pat [] acc = .ok acc from rfl] at h
    injection h with h1
    subst h1
    omega
  | cons entry rest ih =>
    obtain ⟨root, dirs, files⟩ := entry
    intro acc res hacc h
    rw [show ffOuter env pat ((root, dirs, files) :: rest) acc
        = (ffInner env pat root (files ++ dirs) acc >>= fun acc1 =>
            if 100 ≤ acc1.length then .ok acc1 else ffOuter env pat rest acc1) from rfl] at h
    cases hin : ffInner env pat root (files ++ dirs) acc with
    | error e =>
      rw [hin, except_bind_error] at h
      exact Except.noConfusion h
    | ok acc1 =>
      rw [hin, except_bind_ok] at h
      have hacc1 : acc1.length ≤ 100 := ffInner_le env pat root (files ++ dirs) acc acc1 hacc hin
      by_cases h100 : 100 ≤ acc1.length
      · rw [if_pos h100] at h
        injection h with h1
        subst h1
        omega
      · rw [if_neg h100] at h
        exact ih acc1 res (by omega) h

/-- A key absent from the first components is never found. -/
theorem lookupFirst_eq_none {α : Type} (l : List (String × α)) (k : String)
    (h : k ∉ l.map Prod.fst) : lookupFirst l k = none := by
  induction l with
  | nil => rfl
  | cons p rest ih =>
    obtain ⟨p1, p2⟩ := p
    simp only [List.map_cons, List.mem_cons] at h
    push_neg at h
    rw [show lookupFirst ((p1, p2) :: rest) k
        = if p1 = k then some p2 else lookupFirst rest k from rfl]
    rw [if_neg (fun he => h.1 he.symm)]
    exact ih h.2

/-- C1 (counterexample): the claim includes the command exit, but an exit
request with a wrong token under a configured auth token closes the
connection without sending the Unauthorized reply, because handle_client
checks for exit before the auth gate. -/
theorem claim_C1_cex :
    handleRequest (some "secret") env0 (.str "exit") (.obj []) (some (.str "wrong"))
      = .closeExit ∧
    stepIsReply (handleRequest (some "secret") env0 (.str "exit") (.obj [])
      (some (.str "wrong"))) = false :=
  ⟨rfl, rfl⟩

/-- C1 (amended): while an auth token is configured, every request whose
command is not exit and whose token does not match is answered with the
Unauthorized error envelope on the open connection, for every environment —
so no handler effect can occur; an exit request instead closes the
connection without a reply regardless of the token. -/
theorem claim_C1 (a : String) (env : Env) (cmd args : Value) (tok : Option Value)
    (hexit : cmdIsExit cmd = false) (htok : tokMatches tok a = false) :
    handleRequest (some a) env cmd args tok = .reply (errResp "Unauthorized") := by
  rw [handleRequest, hexit]
  simp only [Bool.false_eq_true, if_false]
  rw [htok]
  simp

/-- C1 witness at a concrete non-exit command with a wrong token. -/
theorem claim_C1_witness :
    cmdIsExit (.str "hostname") = false ∧
    tokMatches (some (.str "wrong")) "secret" = false ∧
    handleRequest (some "secret") env0 (.str "hostname") (.obj []) (some (.str "wrong"))
      = .reply (errResp "Unauthorized") :=
  ⟨rfl, rfl, claim_C1 "secret" env0 (.str "hostname") (.obj []) (some (.str "wrong")) rfl rfl⟩

/-- C5: with no auth token configured the token binding of the decoded
request object is never read: two requests agreeing on their command and
args lookups are processed identically, whatever their token bindings. -/
theorem claim_C5 (env : Env) (kvs1 kvs2 : List (String × Value))
    (hcmd : objGetLast kvs1 "command" = objGetLast kvs2 "command")
    (hargs : objGetLast kvs1 "args" = objGetLast kvs2 "args") :
    handleValue none env (.obj kvs1) = handleValue none env (.obj kvs2) := by
  have hR : ∀ c a t, handleRequest none env c a t
      = if cmdIsExit c then StepResult.closeExit else dispatchCmd env c a :=
    fun _ _ _ => rfl
  rw [show handleValue none env (.obj kvs1)
      = handleRequest none env ((objGetLast kvs1 "command").getD (.str ""))
        ((objGetLast kvs1 "args").getD (.obj [])) (objGetLast kvs1 "token") from rfl]
  rw [show handleValue none env (.obj kvs2)
      = handleRequest none env ((objGetLast kvs2 "command").getD (.str ""))
        ((objGetLast kvs2 "args").getD (.obj [])) (objGetLast kvs2 "token") from rfl]
  rw [hR, hR, hcmd, hargs]

/-- C5 witness: the same echo request with and without a token binding. -/
theorem claim_C5_witness :
    objGetLast [("command", Value.str "echo"),
        ("args", Value.obj [("message", Value.str "hi")]), ("token", Value.str "t")] "command"
      = objGetLast [("command", Value.str "echo"),
        ("args", Value.obj [("message", Value.str "hi")])] "command" ∧
    objGetLast [("command", Value.str "echo"),
        ("args", Value.obj [("message", Value.str "hi")]), ("token", Value.str "t")] "args"
      = objGetLast [("command", Value.str "echo"),
        ("args", Value.obj [("message", Value.str "hi")])] "args" ∧
    handleValue none env0 (.obj [("command", Value.str "echo"),
        ("args", Value.obj [("message", Value.str "hi")]), ("token", Value.str "t")])
      = handleValue none env0 (.obj [("command", Value.str "echo"),
        ("args", Value.obj [("message", Value.str "hi")])]) :=
  ⟨rfl, rfl, claim_C5 env0 _ _ rfl rfl⟩

/-- C8: a decoded request object whose command binding is exit makes the
session loop break before any reply is produced; the connection is closed
without a response, for every auth configuration and environment. -/
theorem claim_C8 (auth : Option String) (env : Env) (kvs : List (String × Value))
    (hcmd : objGetLast kvs "command" = some (.str "exit")) :
    handleValue auth env (.obj kvs) = .closeExit := by
  rw [show handleValue auth env (.obj kvs)
      = handleRequest auth env ((objGetLast kvs "command").getD (.str ""))
        ((objGetLast kvs "args").getD (.obj [])) (objGetLast kvs "token") from rfl]
  rw [hcmd]
  rfl

/-- C8 witness at the concrete exit request. -/
theorem claim_C8_witness :
    objGetLast [("command", Value.str "exit")] "command" = some (.str "exit") ∧
    handleValue none env0 (.obj [("command", Value.str "exit")]) = .closeExit :=
  ⟨rfl, claim_C8 none env0 [("command", Value.str "exit")] rfl⟩

/-- C6: every authorized request whose command is a string outside the
registry and different from exit is answered with the interpolated Unknown
command error envelope on the open connection. -/
theorem claim_C6 (auth : Option String) (env : Env) (name : String) (args : Value)
    (tok : Option Value) (hname : name ∉ commandNames) (hexit : name ≠ "exit")
    (hauth : authOk auth tok) :
    handleRequest auth env (.str name) args tok
      = .reply (errResp ("Unknown command: " ++ name)) := by
  have hexitB : cmdIsExit (.str name) = false := by
    simp [cmdIsExit, hexit]
  have hps : pyStr (.str name) = name := by
    rw [pyStr]
  have hdisp : dispatchCmd env (.str name) args
      = .reply (errResp ("Unknown command: " ++ name)) := by
    rw [show dispatchCmd env (.str name) args
        = (match lookupHandler (.str name) with
           | some h =>
             (match h args env with
              | .ok r => StepResult.reply r
              | .error e => StepResult.closeErr e)
           | none => .reply (errResp ("Unknown command: " ++ pyStr (.str name)))) from rfl]
    rw [show lookupHandler (.str name) = lookupFirst commands name from rfl]
    rw [lookupFirst_eq_none commands name hname]
    rw [hps]
  rw [handleRequest.eq_def, hexitB]
  simp only [Bool.false_eq_true, if_false]
  cases auth with
  | none => exact hdisp
  | some a =>
    have htok : tokMatches tok a = true := hauth
    dsimp only
    rw [htok]
    simp only [if_true]
    exact hdisp

/-- C6 witness at a concrete unknown command with auth disabled. -/
theorem claim_C6_witness :
    ("frobnicate" ∉ commandNames) ∧ ("frobnicate" ≠ "exit") ∧ authOk none none ∧
    handleRequest none env0 (.str "frobnicate") (.obj []) none
      = .reply (errResp ("Unknown command: " ++ "frobnicate")) :=
  ⟨by decide, by decide, trivial,
    claim_C6 none env0 "frobnicate" (.obj []) none (by decide) (by decide) trivial⟩

/-- C7 (counterexample): the bytes 0xFF are not valid JSON, yet the server
does not reply Invalid command format: the UnicodeDecodeError escapes the
except clause that only catches JSONDecodeError, and the connection closes
without any reply. -/
theorem claim_C7_cex :
    bytesValidJson [255] = false ∧
    handleMessage none env0 [255] = .closeErr utf8Err ∧
    stepIsReply (handleMessage none env0 [255]) = false :=
  ⟨rfl, rfl, rfl⟩

/-- C7 (amended): every nonempty received message that decodes as UTF-8 to a
string that json.loads does not accept is answered with the Invalid command
format error envelope on the open connection; a message that is not valid
UTF-8 instead terminates the session without a reply. -/
theorem claim_C7 (auth : Option String) (env : Env) (data : List Nat) (s : String)
    (hne : data ≠ []) (hdec : utf8DecodeAll data = some s) (hjson : loadsOk s = false) :
    handleMessage auth env data = .reply (errResp "Invalid command format") := by
  have hnone : parseJson s = none := loadsOk_false_parseJson s hjson
  rw [handleMessage]
  rw [show data.isEmpty = false from by
    cases data with
    | nil => exact absurd rfl hne
    | cons b bs => rfl]
  simp only [Bool.false_eq_true, if_false]
  rw [hdec]
  dsimp only
  rw [hnone]

/-- C7 witness at concrete non-JSON ASCII bytes. -/
theorem claim_C7_witness :
    ([110, 111, 112, 101] : List Nat) ≠ [] ∧
    utf8DecodeAll [110, 111, 112, 101] = some "nope" ∧
    loadsOk "nope" = false ∧
    handleMessage none env0 [110, 111, 112, 101]
      = .reply (errResp "Invalid command format") :=
  ⟨by decide, rfl, rfl, claim_C7 none env0 [110, 111, 112, 101] "nope" (by decide) rfl rfl⟩

/-- C10: for every integer limit binding, processlist succeeds and returns
the stable memory-sorted records under the Python slice l[:limit]; a zero
limit yields the empty list and a negative limit drops the last natAbs
limit entries. -/
theorem claim_C10 (env : Env) (kvs : List (String × Value)) (n : Int)
    (hlim : objGetLast kvs "limit" = some (.int n)) :
    get_process_list (.obj kvs) env
      = .ok (okResp (.arr ((pySliceInt (sortByMemDesc env.processes) n).map procToValue))) ∧
    pySliceInt (sortByMemDesc env.processes) 0 = [] ∧
    (n < 0 → pySliceInt (sortByMemDesc env.processes) n
      = (sortByMemDesc env.processes).take
          ((sortByMemDesc env.processes).length - n.natAbs)) := by
  refine ⟨?_, ?_, ?_⟩
  · have h1 : pyGetD (.obj kvs) "limit" (.int 10) = .ok (.int n) := by
      rw [show pyGetD (.obj kvs) "limit" (.int 10)
          = .ok ((objGetLast kvs "limit").getD (.int 10)) from rfl, hlim]
      rfl
    rw [get_process_list]
    rw [h1, except_bind_ok]
    rfl
  · rw [pySliceInt]
    simp
  · intro hn
    rw [pySliceInt, if_neg (by omega)]

/-- C10 witness at the concrete zero limit. -/
theorem claim_C10_witness :
    objGetLast [("limit", Value.int 0)] "limit" = some (.int 0) ∧
    get_process_list (.obj [("limit", Value.int 0)]) env0
      = .ok (okResp (.arr ((pySliceInt (sortByMemDesc env0.processes) 0).map procToValue))) :=
  ⟨rfl, (claim_C10 env0 [("limit", Value.int 0)] 0 rfl).1⟩

/-- C2 (counterexample): echo is a registered handler, yet applied to a
decoded args value that is a string rather than a mapping it raises an
AttributeError past its boundary instead of returning an error response —
it is the only handler without a try/except wrapper. -/
theorem claim_C2_cex :
    lookupHandler (.str "echo") = some echo_message ∧
    echo_message (.str "boom") env0 = .error (attrNoGet (.str "boom")) ∧
    exceptOk (echo_message (.str "boom") env0) = false :=
  ⟨rfl, rfl, rfl⟩

/-- C2 (amended): every registered handler, applied to a mapping args value
as the spec's handler contract states, returns a response normally and never
raises; internal failures are converted into error envelopes by the
per-handler try/except. -/
theorem claim_C2 (p : String × (Value → Env → Except PyErr Response))
    (hp : p ∈ commands) (kvs : List (String × Value)) (env : Env) :
    exceptOk (p.2 (.obj kvs) env) = true := by
  simp only [commands, List.mem_cons, List.not_mem_nil, or_false] at hp
  rcases hp with rfl | rfl | rfl | rfl | rfl | rfl | rfl | rfl | rfl | rfl | rfl | rfl
  · rfl
  · exact exceptOk_pyTry _
  · exact exceptOk_pyTry _
  · exact exceptOk_pyTry _
  · rfl
  · rfl
  · exact exceptOk_pyTry _
  · rfl
  · rfl
  · rfl
  · exact exceptOk_pyTry _
  · exact exceptOk_pyTry _

/-- C2 witness: echo on a concrete mapping args returns normally. -/
theorem claim_C2_witness :
    (("echo", echo_message) ∈ commands) ∧
    exceptOk (echo_message (.obj [("message", Value.str "hi")]) env0) = true :=
  ⟨by simp [commands],
    claim_C2 ("echo", echo_message) (by simp [commands]) [("message", Value.str "hi")] env0⟩

/-- C3 (counterexample): ping is a registered handler whose failed run
produces a response with status error while both the result and the error
fields are populated, refuting the exactly-one rule for ping. -/
theorem claim_C3_cex :
    lookupHandler (.str "ping") = some ping_host ∧
    ping_host (.obj [("host", Value.str "example.com")]) envPing = .ok pingFailResp ∧
    exclusiveB pingFailResp = false :=
  ⟨rfl, rfl, rfl⟩

/-- C3 (amended): every registered handler other than ping only ever
returns envelopes in which a success populates exactly the result and an
error populates exactly the error; ping populates both streams regardless
of its status. -/
theorem claim_C3 (p : String × (Value → Env → Except PyErr Response))
    (hp : p ∈ commands) (hping : p.1 ≠ "ping") (args : Value) (env : Env)
    (r : Response) (hr : p.2 args env = .ok r) : exclusiveB r = true := by
  simp only [commands, List.mem_cons, List.not_mem_nil, or_false] at hp
  rcases hp with rfl | rfl | rfl | rfl | rfl | rfl | rfl | rfl | rfl | rfl | rfl | rfl
  · exact goodOk_okResp _ r hr
  · refine goodOk_pyTry _ ?_ r hr
    apply goodOk_bind
    intro path
    apply goodOk_bind
    intro files
    apply goodOk_bind
    intro infos
    exact goodOk_okResp _
  · refine goodOk_pyTry _ ?_ r hr
    apply goodOk_bind
    intro path
    apply goodOk_bind
    intro u
    apply goodOk_ite
    · exact goodOk_error _
    · exact goodOk_okResp _
  · refine goodOk_pyTry _ ?_ r hr
    apply goodOk_bind
    intro limit
    apply goodOk_bind
    intro sliced
    exact goodOk_okResp _
  · exact goodOk_pyTry _ (goodOk_okResp _) r hr
  · exact goodOk_pyTry _ (goodOk_okResp _) r hr
  · refine goodOk_pyTry _ ?_ r hr
    apply goodOk_bind
    intro path
    apply goodOk_ite
    · exact goodOk_errResp _
    · apply goodOk_bind
      intro ex
      apply goodOk_ite
      · exact goodOk_errResp _
      · apply goodOk_bind
        intro st
        apply goodOk_bind
        intro nm
        apply goodOk_bind
        intro ab
        apply goodOk_bind
        intro d
        apply goodOk_bind
        intro fl
        apply goodOk_bind
        intro l
        exact goodOk_okResp _
  · exact goodOk_pyTry _ (goodOk_okResp _) r hr
  · exact goodOk_pyTry _ (goodOk_okResp _) r hr
  · refine ?_
    have : goodOk (echo_message args env) := by
      apply goodOk_bind
      intro m
      exact goodOk_okResp _
    exact this r hr
  · exact absurd rfl hping
  · refine goodOk_pyTry _ ?_ r hr
    apply goodOk_bind
    intro pattern
    apply goodOk_bind
    intro path
    apply goodOk_ite
    · exact goodOk_errResp _
    · apply goodOk_bind
      intro ms
      intro r1 hr1
      injection hr1 with h1
      rw [← h1]
      rfl

/-- C3 witness: echo on a concrete request yields a success envelope
populating exactly the result. -/
theorem claim_C3_witness :
    (("echo", echo_message) ∈ commands) ∧
    (("echo", echo_message).1 ≠ "ping") ∧
    echo_message (.obj [("message", Value.str "hi")]) env0 = .ok (okResp (.str "hi")) ∧
    exclusiveB (okResp (.str "hi")) = true :=
  ⟨by simp [commands], by decide, rfl,
    claim_C3 ("echo", echo_message) (by simp [commands]) (by decide)
      (.obj [("message", Value.str "hi")]) env0 (okResp (.str "hi")) rfl⟩

/-- C4: whenever find_file returns a success envelope carrying a match
list, that list holds at most one hundred entries, for every pattern, every
path and every walked tree. -/
theorem claim_C4 (args : Value) (env : Env) (r : Response) (ms : List Value)
    (hok : find_file args env = .ok r) (hst : r.status = "success")
    (hres : r.result = some (.arr ms)) : ms.length ≤ 100 := by
  rw [find_file] at hok
  rcases pyTry_ok _ _ hok with hbody | ⟨m, rfl⟩
  · cases hpat : pyGetD args "pattern" .null with
    | error e =>
      rw [hpat, except_bind_error] at hbody
      exact Except.noConfusion hbody
    | ok pat =>
      rw [hpat, except_bind_ok] at hbody
      cases hpath : pyGetD args "path" (.str ".") with
      | error e =>
        rw [hpath, except_bind_error] at hbody
        exact Except.noConfusion hbody
      | ok path =>
        rw [hpath, except_bind_ok] at hbody
        by_cases hfal : pyFalsy pat = true
        · rw [if_pos hfal] at hbody
          injection hbody with h1
          rw [← h1] at hst
          exact absurd hst (by decide)
        · rw [if_neg hfal] at hbody
          cases hout : ffOuter env pat (env.walk path) [] with
          | error e =>
            rw [hout, except_bind_error] at hbody
            exact Except.noConfusion hbody
          | ok ms0 =>
            rw [hout, except_bind_ok] at hbody
            injection hbody with h1
            rw [← h1] at hres
            simp only at hres
            injection hres with h2
            injection h2 with h3
            rw [← h3]
            exact ffOuter_le env pat (env.walk path) [] ms0 (by simp) hout
  · rw [show (errResp m).status = "error" from rfl] at hst
    exact absurd hst (by decide)

set_option maxRecDepth 40000 in
/-- C4 witness: a walked tree with 150 matching files yields exactly one
hundred matches. -/
theorem claim_C4_witness :
    find_file (.obj [("pattern", Value.str "log")]) envWalk
      = .ok { status := "success",
              result := some (.arr (List.replicate 100
                (Value.obj [("path", Value.str "./log.txt"), ("is_dir", Value.bool false)]))),
              error := none, count := some 100 } ∧
    (List.replicate 100
      (Value.obj [("path", Value.str "./log.txt"), ("is_dir", Value.bool false)])).length ≤ 100 :=
  ⟨rfl, claim_C4 (.obj [("pattern", Value.str "log")]) envWalk _ _ rfl rfl rfl⟩

end RCE
